import Mathlib

/-!
Verification of the keyword-research tool (clustering engine,
job orchestrator, rate limiter, CSV exporter), shallowly embedded
from the JavaScript source.

Numbers: JavaScript floating-point arithmetic is idealised as exact
arithmetic — rational (`ℚ`) where the code only adds, divides and
compares, real (`ℝ`) where the code calls `Math.log` / `Math.log10`.
Strings are ASCII models of JS strings (`List Char` based helpers).
-/

namespace KeywordTool

/-- Model of `Math.min` on exact rationals (kernel-reducible, unlike
the lattice `min` of `ℚ`). -/
def jsMin (a b : ℚ) : ℚ := if a ≤ b then a else b

/-- Model of `Math.max` on exact rationals. -/
def jsMax (a b : ℚ) : ℚ := if a ≤ b then b else a

/-! ### JS string primitives

Models of the JavaScript string operations used by the source
(`toLowerCase`, `trim`, `split(' ')`, `includes`), over `List Char`
so that everything reduces by the kernel.
-/

/-- Model of `String.prototype.toLowerCase` (ASCII). -/
def jsLower (s : String) : String := String.mk (s.data.map Char.toLower)

/-- Whitespace characters recognised by the model of `trim` and `\s`. -/
def jsIsSpace (c : Char) : Bool := c == ' ' || c == '\t' || c == '\n' || c == '\r'

/-- Model of `String.prototype.trim`. -/
def jsTrim (s : String) : String :=
  String.mk (((s.data.dropWhile (jsIsSpace ·)).reverse.dropWhile (jsIsSpace ·)).reverse)

/-- Model of `String.prototype.includes`: substring containment. -/
def containsStr (hay sub : String) : Bool := decide (sub.data <:+: hay.data)

/-- Splitting on a single space, keeping empty pieces — model of
`str.split(' ')` (so `"" → [""]`, `"a  b" → ["a","","b"]`). -/
def splitSpaceAux : List Char → List Char → List String
  | [], acc => [String.mk acc.reverse]
  | c :: rest, acc =>
    if c == ' ' then String.mk acc.reverse :: splitSpaceAux rest []
    else splitSpaceAux rest (c :: acc)

/-- Model of `str.split(' ')`. -/
def jsWords (s : String) : List String := splitSpaceAux s.data []

/-! ### Tokenizer and stemmer

Embeds the repository's `SimpleTokenizer` and `simpleStemmer`
(`createFallbackNlpToolkit` in the clustering module): lowercase,
replace every character outside `[a-z0-9\s]` by a space, split on
whitespace runs; the stemmer applies the first matching suffix rule,
only to words longer than 4 characters.
-/

/-- `replace(/[^a-z0-9\s]+/giu, ' ')` after lowercasing: any character
that is not a lowercase letter or digit becomes a space (whitespace
characters are themselves split on afterwards, so mapping them to a
space is equivalent). -/
def toAlnumSpace (c : Char) : Char :=
  if ('a' ≤ c && c ≤ 'z') || ('0' ≤ c && c ≤ '9') then c else ' '

/-- Split a character list on spaces, dropping empty runs
(model of `.split(/\s+/u).filter(Boolean)`). -/
def splitRunsAux : List Char → List Char → List (List Char)
  | [], acc => if acc.isEmpty then [] else [acc.reverse]
  | c :: rest, acc =>
    if c == ' ' then
      if acc.isEmpty then splitRunsAux rest [] else acc.reverse :: splitRunsAux rest []
    else splitRunsAux rest (c :: acc)

/-- `SimpleTokenizer.tokenize` from the clustering module. -/
def jsTokenize (s : String) : List String :=
  (splitRunsAux ((jsLower s).data.map toAlnumSpace) []).map String.mk

def isVowelCh (c : Char) : Bool :=
  c == 'a' || c == 'e' || c == 'i' || c == 'o' || c == 'u' || c == 'y'

def isConsonantCh (c : Char) : Bool := "bcdfghjklmnpqrstvwxyz".data.contains c

/-- The ordered suffix rules of `simpleStemmer.stem`, applied to the
reversed character list of the word; returns `some` of the reversed
result when a rule matches (`break` after the first match). -/
def stemRulesRev (r : List Char) : Option (List Char) :=
  match r with
  | 's' :: 'e' :: 'i' :: v :: rest =>
    -- /([aeiouy])ies$/ → '$1y'
    if isVowelCh v then some ('y' :: v :: rest) else stemRulesRevTail r
  | _ => stemRulesRevTail r
where
  stemRulesRevTail (r : List Char) : Option (List Char) :=
    match r with
    | 's' :: 'e' :: 'v' :: v :: rest =>
      -- /([aeiouy])ves$/ → '$1f'
      if isVowelCh v then some ('f' :: v :: rest) else stemRulesRev3 r
    | _ => stemRulesRev3 r
  stemRulesRev3 (r : List Char) : Option (List Char) :=
    match r with
    | 's' :: 'e' :: c1 :: c2 :: rest =>
      -- /([bcdfghjklmnpqrstvwxyz])\1es$/ → '$1'
      if c1 == c2 && isConsonantCh c1 then some (c1 :: rest) else stemRulesRev4 r
    | _ => stemRulesRev4 r
  stemRulesRev4 (r : List Char) : Option (List Char) :=
    match r with
    | 's' :: 'e' :: c :: rest =>
      -- /([sxz])es$/ → '$1'
      if c == 's' || c == 'x' || c == 'z' then some (c :: rest) else stemRulesRev5 r
    | _ => stemRulesRev5 r
  stemRulesRev5 (r : List Char) : Option (List Char) :=
    match r with
    | 'd' :: 'e' :: c :: v :: rest =>
      -- /([aeiouy][^aeiouy])ed$/ → '$1'
      if isVowelCh v && !isVowelCh c then some (c :: v :: rest) else stemRulesRev6 r
    | _ => stemRulesRev6 r
  stemRulesRev6 (r : List Char) : Option (List Char) :=
    match r with
    | 'g' :: 'n' :: 'i' :: c :: v :: rest =>
      -- /([aeiouy][^aeiouy])ing$/ → '$1'
      if isVowelCh v && !isVowelCh c then some (c :: v :: rest) else stemRulesRev7 r
    | _ => stemRulesRev7 r
  stemRulesRev7 (r : List Char) : Option (List Char) :=
    match r with
    | 't' :: 'n' :: 'e' :: 'm' :: rest => some rest      -- /ment$/ → ''
    | 's' :: 's' :: 'e' :: 'n' :: rest => some rest      -- /ness$/ → ''
    | 's' :: 'r' :: 'e' :: rest => some rest             -- /ers?$/ → '' ("ers")
    | 'r' :: 'e' :: rest => some rest                    -- /ers?$/ → '' ("er")
    | 'y' :: 'l' :: rest => some rest                    -- /ly$/ → ''
    | 's' :: rest => some rest                           -- /s$/ → ''
    | _ => none

/-- `simpleStemmer.stem` from the clustering module. -/
def jsStem (w : String) : String :=
  let l := (jsLower w).data
  if 4 < l.length then
    match stemRulesRev l.reverse with
    | some r => String.mk r.reverse
    | none => String.mk l
  else String.mk l

/-- The module-level `STOP_WORDS` set of the clustering module. -/
def STOP_WORDS : List String :=
  ["the", "and", "for", "with", "that", "this", "from", "your", "when", "what",
   "best", "how", "are", "was", "you", "why", "can", "will", "use", "using",
   "into", "have", "has", "had", "their", "them", "they", "about", "want", "need",
   "idea", "ideas", "tips", "guide", "guides", "info", "information", "to", "in",
   "on", "of", "a", "an", "is", "it", "be", "by", "or", "as"]

/-- `STEMMED_STOP_WORDS = new Set([...STOP_WORDS].map(stem))`. -/
def STEMMED_STOP_WORDS : List String := STOP_WORDS.map jsStem

/-! ### Semantic similarity (`calculateSemanticSimilarity`) -/

/-- The set of stemmed tokens of a string
(`new Set(tokenizer.tokenize(text.toLowerCase()).map(stem))` — the
tokenizer lowercases already, so the extra `toLowerCase` is absorbed). -/
def tokenStems (s : String) : Finset String := ((jsTokenize s).map jsStem).toFinset

/-- The "common patterns" bonus of `calculateSemanticSimilarity`:
+0.2 when the last words agree and both strings are multi-word,
else +0.15 when the first words agree and both are multi-word. -/
def patternBonus (l1 l2 : String) : ℚ :=
  let w1 := jsWords l1
  let w2 := jsWords l2
  if w1.getLast? = w2.getLast? ∧ 1 < w1.length ∧ 1 < w2.length then 1/5
  else if w1.head? = w2.head? ∧ 1 < w1.length ∧ 1 < w2.length then 3/20
  else 0

/-- `calculateSemanticSimilarity` from the clustering module:
Jaccard similarity of stemmed token sets, +0.3 substring-containment
bonus, + pattern bonus, capped at 1. -/
def calculateSemanticSimilarity (text1 text2 : String) : ℚ :=
  let t1 := tokenStems text1
  let t2 := tokenStems text2
  let inter := (t1 ∩ t2).card
  let uni := (t1 ∪ t2).card
  let jaccardSim : ℚ := if 0 < uni then (inter : ℚ) / (uni : ℚ) else 0
  let lower1 := jsLower text1
  let lower2 := jsLower text2
  let substringBonus : ℚ :=
    if containsStr lower1 lower2 || containsStr lower2 lower1 then 3/10 else 0
  jsMin 1 (jaccardSim + substringBonus + patternBonus lower1 lower2)

/-! ### Data model

`Keyword` is one enriched keyword as produced by the metrics client;
`Cluster` is the cluster object built by `createClusterObject` (plus the
optional fields later passes attach: relevance, AI text, rank).
JS numbers: search volumes are integers, CPCs exact rationals, scores
that pass through `Math.log` are reals.
-/

structure Keyword where
  keyword : String
  searchVolume : ℤ
  competition : String
  cpc : ℚ
  cpcHigh : ℚ
deriving DecidableEq, Repr

structure Cluster where
  id : ℤ
  pillarTopic : String
  keywords : List Keyword
  totalSearchVolume : ℤ
  avgSearchVolume : ℤ
  avgCompetition : String
  clusterValueScore : ℝ
  algorithm : String
  keywordCount : ℕ
  relevanceScore : Option ℝ := none
  removedKeywords : ℕ := 0
  aiDescription : Option String := none
  aiContentStrategy : Option String := none
  aiEnhanced : Bool := false
  rank : Option ℕ := none

/-- Module-level `MIN_CLUSTER_SIZE = 3`. -/
def MIN_CLUSTER_SIZE : ℕ := 3

/-- Module-level `MIN_CLUSTERS = 3`. -/
def MIN_CLUSTERS : ℕ := 3

/-- Module-level `DEFAULT_RELEVANCE_SCORE = 0.65`. -/
def DEFAULT_RELEVANCE_SCORE : ℚ := 13/20

/-- Module-level `CLEAR_KEYWORD_RELEVANCE_THRESHOLD = 0.01`. -/
def CLEAR_KEYWORD_RELEVANCE_THRESHOLD : ℚ := 1/100

/-- `keyword.keyword.trim().toLowerCase()` — the normalised form used as
identity of a keyword text throughout the clustering module. -/
def normKey (s : String) : String := jsLower (jsTrim s)

/-! ### Stable sort (model of `Array.prototype.sort` with a comparator)

JS engines use a stable sort; a stable insertion sort produces the same
result for a consistent comparator. `le y x` means "y stays in front
of x" (comparator value ≤ 0 for the pair (y, x)).
-/

def insertBy (le : α → α → Bool) (x : α) : List α → List α
  | [] => [x]
  | y :: ys => if le y x then y :: insertBy le x ys else x :: y :: ys

def jsSortBy (le : α → α → Bool) (l : List α) : List α :=
  l.foldl (fun acc x => insertBy le x acc) []

/-- `[...keywords].sort((a, b) => b.searchVolume - a.searchVolume)`. -/
def sortKeywordsByVolume (l : List Keyword) : List Keyword :=
  jsSortBy (fun a b => decide (b.searchVolume ≤ a.searchVolume)) l

/-! ### Cluster metrics (`calculateTotalVolume`, `calculateAvgCompetition`,
`calculateClusterValue`, `selectPillarTopic`, `createClusterObject`) -/

/-- `calculateTotalVolume`: sum of `searchVolume` over the keywords. -/
def calculateTotalVolume (kws : List Keyword) : ℤ :=
  (kws.map (·.searchVolume)).sum

/-- The `competitionValues` lookup with its `|| 2` fallback
(low 1, medium 2, high 3, unknown 2, unspecified 2, anything else 2). -/
def competitionValue (s : String) : ℚ :=
  if s = "low" then 1 else if s = "medium" then 2 else if s = "high" then 3 else 2

/-- `calculateAvgCompetition`: bucket the average competition value. -/
def calculateAvgCompetition (kws : List Keyword) : String :=
  if kws.isEmpty then "unknown"
  else
    let avgValue := ((kws.map (fun k => competitionValue k.competition)).sum) / (kws.length : ℚ)
    if avgValue < 3/2 then "low" else if avgValue < 5/2 then "medium" else "high"

/-- `calculateClusterValue`: the 0–100 cluster value score. `Math.log10`,
`Math.log` and `Math.log1p` are idealised as the exact real logarithms;
`Math.round` is round-half-up (`round` of Mathlib). -/
noncomputable def calculateClusterValue (kws : List Keyword) (relevanceScore : ℝ) : ℤ :=
  if kws.isEmpty then 0
  else
    let n : ℝ := (kws.length : ℝ)
    let totalVolume : ℝ := ((calculateTotalVolume kws : ℤ) : ℝ)
    let avgVolume : ℝ := totalVolume / n
    let totalVolumeScore := min 40 (Real.logb 10 (totalVolume + 1) * 20)
    let avgVolumeScore := min 25 (Real.log (avgVolume + 1) * 10)
    let avgCompetitionValue := ((kws.map (fun k => ((competitionValue k.competition : ℚ) : ℝ))).sum) / n
    let competitionNormalized := 1 - min 1 (max 0 ((avgCompetitionValue - 1) / 2))
    let competitionScore := max 0 (min 20 (competitionNormalized * 20))
    let sizeScore := min 10 (Real.log (1 + n) * 4)
    let normalizedRelevance := max 0 (min 1 relevanceScore)
    let relevanceComponent := normalizedRelevance * 25
    round (min 100 (max 0
      (totalVolumeScore + avgVolumeScore + competitionScore + sizeScore + relevanceComponent)))

/-- The per-keyword pillar score of `selectPillarTopic`: `Math.log(volume+1)`
with the word-count multipliers, plus 0.5 per other keyword containing
this one. -/
noncomputable def pillarScore (kws : List Keyword) (k : Keyword) : ℝ :=
  let base := Real.log ((k.searchVolume : ℝ) + 1)
  let wc := (jsWords k.keyword).length
  let s1 := if wc = 2 ∨ wc = 3 then base * 1.2 else base
  let s2 := if wc = 1 then s1 * 0.8 else s1
  let s3 := if 4 < wc then s2 * 0.7 else s2
  let containmentCount := (kws.filter (fun j =>
    j.keyword ≠ k.keyword ∧ containsStr (jsLower j.keyword) (jsLower k.keyword))).length
  s3 + (containmentCount : ℝ) * 0.5

/-- First maximiser of `f` (earliest on ties) — the head of the stable
descending sort used by `selectPillarTopic`. -/
noncomputable def pickMaxBy (f : α → ℝ) (l : List α) : Option α :=
  l.foldl (fun best k =>
    match best with
    | none => some k
    | some b => if f b < f k then some k else some b) none

/-- `selectPillarTopic`. -/
noncomputable def selectPillarTopic (kws : List Keyword) : String :=
  if kws.isEmpty then "Unknown Topic"
  else ((pickMaxBy (pillarScore kws) kws).map (·.keyword)).getD "Unknown Topic"

/-- `createClusterObject`. (`avgSearchVolume = Math.round(total/length)`.) -/
noncomputable def createClusterObject (id : ℤ) (keywords : List Keyword) (algorithm : String) :
    Cluster :=
  let sortedKeywords := sortKeywordsByVolume keywords
  let total := calculateTotalVolume sortedKeywords
  { id := id
    pillarTopic := selectPillarTopic sortedKeywords
    keywords := sortedKeywords
    totalSearchVolume := total
    avgSearchVolume := round ((total : ℚ) / (sortedKeywords.length : ℚ))
    avgCompetition := calculateAvgCompetition sortedKeywords
    clusterValueScore := ((calculateClusterValue sortedKeywords (DEFAULT_RELEVANCE_SCORE : ℝ) : ℤ) : ℝ)
    algorithm := algorithm
    keywordCount := sortedKeywords.length }

/-! ### Uniqueness enforcement (`ensureUniqueKeywords`)

Phase 1 ("assign"): walk clusters in order, keeping for every normalised
keyword text its current owner `(clusterIndex, affinity)`; a later
occurrence steals the keyword only when its affinity to that cluster's
pillar topic exceeds the owner's by more than 0.02.
Phase 2 ("collect"): clusters that retain ≥ MIN_CLUSTER_SIZE keywords are
rebuilt with `createClusterObject` (keeping a non-empty pillar topic and
any non-blank `ai*` text fields); smaller ones dissolve into orphans.
Phase 3: each orphan is merged into the best remaining cluster, if any.
-/

/-- The evolving state of phase 1: the retained keywords of every input
cluster (by index) and the owner map. -/
structure AssignState where
  lists : List (List Keyword)
  owners : String → Option (ℕ × ℚ)

/-- Update the `i`-th entry of a list in place (model of mutating
`normalizedClusters[i]`). Out-of-range indices leave the list unchanged. -/
def listUpdate : List (List Keyword) → ℕ → (List Keyword → List Keyword) → List (List Keyword)
  | [], _, _ => []
  | l :: ls, 0, f => f l :: ls
  | l :: ls, n + 1, f => l :: listUpdate ls n f

/-- One keyword of cluster `i` (pillar topic `pillar`) processed by the
phase-1 loop of `ensureUniqueKeywords`. -/
def assignStep (pillar : String) (i : ℕ) (st : AssignState) (kw : Keyword) : AssignState :=
  let normalized := normKey kw.keyword
  if normalized = "" then st
  else
    let affinity := calculateSemanticSimilarity kw.keyword pillar
    match st.owners normalized with
    | none =>
      { lists := listUpdate st.lists i (fun l => l ++ [kw])
        owners := fun t => if t = normalized then some (i, affinity) else st.owners t }
    | some (j, a) =>
      if a + 1/50 < affinity then
        let cleared := listUpdate st.lists j (fun l =>
          l.filter (fun e => normKey e.keyword ≠ normalized))
        { lists := listUpdate cleared i (fun l => l ++ [kw])
          owners := fun t => if t = normalized then some (i, affinity) else st.owners t }
      else st

def assignClusterFold (st : AssignState) (p : ℕ × Cluster) : AssignState :=
  p.2.keywords.foldl (assignStep p.2.pillarTopic p.1) st

/-- Phase 1 of `ensureUniqueKeywords` over the whole cluster list. -/
def assignPhase (clusters : List Cluster) : AssignState :=
  clusters.enum.foldl assignClusterFold
    { lists := clusters.map (fun _ => []), owners := fun _ => none }

/-- Phase 2: `{...baseCluster, pillarTopic: cluster.pillarTopic || base…}`
plus the copy of non-blank `ai*` string fields and `aiEnhanced`. -/
noncomputable def mergeAi (c : Cluster) (base : Cluster) : Cluster :=
  let m1 := { base with pillarTopic := if c.pillarTopic ≠ "" then c.pillarTopic else base.pillarTopic }
  let m2 := match c.aiDescription with
    | some s => if jsTrim s ≠ "" then { m1 with aiDescription := some s } else m1
    | none => m1
  let m3 := match c.aiContentStrategy with
    | some s => if jsTrim s ≠ "" then { m2 with aiContentStrategy := some s } else m2
    | none => m2
  if c.aiEnhanced then { m3 with aiEnhanced := true } else m3

/-- Phase 2 of `ensureUniqueKeywords`: rebuild surviving clusters, collect
orphans of dissolved ones. -/
noncomputable def collectClusters (pairs : List (Cluster × List Keyword)) :
    List Cluster × List Keyword :=
  pairs.foldl (fun acc p =>
    if MIN_CLUSTER_SIZE ≤ p.2.length then
      (acc.1 ++ [mergeAi p.1 (createClusterObject ((acc.1.length : ℤ) + 1) p.2
        (if p.1.algorithm ≠ "" then p.1.algorithm else "hybrid"))], acc.2)
    else (acc.1, acc.2 ++ p.2)) ([], [])

/-- `findBestClusterForKeyword`, returning the index of the chosen cluster:
best average similarity to the cluster's top-5 keywords, required > 0.3.
(For an empty keyword list JS computes NaN and every comparison is false;
in ℚ the average is 0 and the comparison is false as well.) -/
def findBestClusterIndex (kw : Keyword) (clusters : List Cluster) : Option ℕ :=
  (clusters.enum.foldl (fun acc p =>
    let top := p.2.keywords.take 5
    let totalSimilarity := (top.map (fun ck => calculateSemanticSimilarity kw.keyword ck.keyword)).sum
    let avgSimilarity := totalSimilarity / (top.length : ℚ)
    if acc.2 < avgSimilarity ∧ 3/10 < avgSimilarity then (some p.1, avgSimilarity) else acc)
    ((none : Option ℕ), (0 : ℚ))).1

/-- Update the `i`-th cluster in place (model of pushing onto
`bestCluster.keywords` through the object reference). -/
def clusterListUpdate : List Cluster → ℕ → (Cluster → Cluster) → List Cluster
  | [], _, _ => []
  | c :: cs, 0, f => f c :: cs
  | c :: cs, n + 1, f => c :: clusterListUpdate cs n f

/-- Phase 3 of `ensureUniqueKeywords`: merge each orphan into the best
remaining cluster unless that cluster already holds the text. -/
def mergeOrphans (orphans : List Keyword) (resultClusters : List Cluster) : List Cluster :=
  orphans.foldl (fun res kw =>
    match findBestClusterIndex kw res with
    | some i =>
      if ((res.get? i).map (fun c =>
          c.keywords.any (fun e => normKey e.keyword = normKey kw.keyword))).getD false then res
      else clusterListUpdate res i (fun c => { c with keywords := c.keywords ++ [kw] })
    | none => res) resultClusters

/-- `ensureUniqueKeywords` from the clustering module. -/
noncomputable def ensureUniqueKeywords (clusters : List Cluster) : List Cluster :=
  if clusters.isEmpty then []
  else
    let st := assignPhase clusters
    let collected := collectClusters (clusters.zip st.lists)
    if !collected.2.isEmpty && !collected.1.isEmpty then mergeOrphans collected.2 collected.1
    else collected.1

/-! ### Invariants of `ensureUniqueKeywords`

`countIn l t` counts the keywords of `l` whose normalised text is `t`.
The phase-1 invariant `OwnersOk`: a text not in the owner map occurs in no
list; a text owned by cluster `j` occurs exactly once, in list `j`.
-/

def countIn (l : List Keyword) (t : String) : ℕ :=
  (l.filter (fun kw => normKey kw.keyword = t)).length

def OwnersOkL (lists : List (List Keyword)) (owners : String → Option (ℕ × ℚ)) : Prop :=
  ∀ t : String,
    (owners t = none → ∀ k, countIn (lists.getD k []) t = 0) ∧
    (∀ j a, owners t = some (j, a) →
      j < lists.length ∧ ∀ k, countIn (lists.getD k []) t = if k = j then 1 else 0)

def OwnersOk (st : AssignState) : Prop := OwnersOkL st.lists st.owners

/-! ### No text is shared between clusters -/

/-- The normalised texts of a keyword list. -/
def normsOfK (l : List Keyword) : List String := l.map (fun k => normKey k.keyword)

/-- The multiset of normalised texts of a cluster list. -/
def clustersNorms (cs : List Cluster) : Multiset String :=
  (cs.map (fun c => (normsOfK c.keywords : Multiset String))).sum

/-- The claim predicate of C1: no normalised keyword text occurs in two
distinct clusters of the list. -/
def NoSharedKeyword (cs : List Cluster) : Prop :=
  cs.Pairwise (fun c d => ∀ t, t ∈ normsOfK c.keywords → t ∉ normsOfK d.keywords)

/-! ### Relevance scoring (`applyRelevanceScores` and helpers)

The orchestrator passes a website context with `url`, `title` and
`description`; the other optional fields read by `buildRelevanceContext`
(business name, focus keyword lists, pages…) are absent on this call
path and are omitted from the embedded context record.
-/

structure WebsiteContext where
  url : String := ""
  title : String := ""
  description : String := ""

/-- `tokenizeForRelevance`: normalise, split, drop stop words, stem, drop
one-letter stems and stemmed stop words. (The normalisation and split are
the same as the tokenizer's.) -/
def tokenizeForRelevance (text : String) : Finset String :=
  ((jsTokenize text).filterMap (fun token =>
    if STOP_WORDS.contains token then none
    else
      let stemmed := jsStem token
      if stemmed.length ≤ 1 then none
      else if STEMMED_STOP_WORDS.contains stemmed then none
      else some stemmed)).toFinset

/-- Join a list of strings with a separator (model of `Array.join`). -/
def jsJoin (sep : String) : List String → String
  | [] => ""
  | x :: rest => rest.foldl (fun acc y => acc ++ sep ++ y) x

/-- First-occurrence deduplication (model of `Array.from(new Set(...))`). -/
def jsDedup (l : List String) : List String := go [] l
where
  go (seen : List String) : List String → List String
    | [] => []
    | x :: rest => if seen.contains x then go seen rest else x :: go (x :: seen) rest

/-- `buildRelevanceContext` on the orchestrator's context record: the
non-blank parts in field order (title, description, url), joined and
lowercased, plus their relevance tokens. -/
def buildRelevanceContext (ctx : WebsiteContext) : String × Finset String :=
  let contextParts := [ctx.title, ctx.description, ctx.url].filter (fun v => jsTrim v ≠ "")
  let normalizedText := jsLower (jsJoin " " contextParts)
  (normalizedText, tokenizeForRelevance normalizedText)

/-- `scoreKeywordRelevance`. -/
def scoreKeywordRelevance (keyword : String) (ctxText : String) (ctxTokens : Finset String)
    (keywordTokens : Finset String) : ℚ :=
  let normalizedKeyword := jsLower keyword
  if keywordTokens.card = 0 then 0
  else
    let matchCount := (keywordTokens ∩ ctxTokens).card
    if matchCount = 0 then 0
    else
      let matchRatio : ℚ := (matchCount : ℚ) / (keywordTokens.card : ℚ)
      let unionSize := (keywordTokens ∪ ctxTokens).card
      let jaccard : ℚ := if 0 < unionSize then (matchCount : ℚ) / (unionSize : ℚ) else matchRatio
      let score := matchRatio * (7/10) + jaccard * (3/10)
      let score2 :=
        if ctxText ≠ "" ∧ normalizedKeyword ≠ "" ∧ containsStr ctxText normalizedKeyword then
          jsMax score (9/10)
        else if 3/5 ≤ matchRatio ∧ keywordTokens.card ≤ 3 then jsMax score (3/4)
        else score
      jsMin 1 score2

/-- The token set of one keyword text inside `enrichClusterWithRelevance`
(`keywordText ? tokenizeForRelevance(keywordText) : new Set()`). -/
def kwTokensOf (kwText : String) : Finset String :=
  if kwText ≠ "" then tokenizeForRelevance kwText else ∅

/-- The per-keyword relevance score inside `enrichClusterWithRelevance`. -/
def keywordScoreOf (hasContext : Bool) (ctxText : String) (ctxTokens : Finset String)
    (kwText : String) : ℚ :=
  if hasContext && kwText ≠ "" then scoreKeywordRelevance kwText ctxText ctxTokens (kwTokensOf kwText)
  else if kwText ≠ "" then DEFAULT_RELEVANCE_SCORE else 0

/-- The `shouldKeep` test of `enrichClusterWithRelevance`. -/
def shouldKeepKw (allowRemoval hasContext : Bool) (ctxText : String) (ctxTokens : Finset String)
    (kw : Keyword) : Bool :=
  !allowRemoval || !hasContext ||
    decide (CLEAR_KEYWORD_RELEVANCE_THRESHOLD < keywordScoreOf hasContext ctxText ctxTokens kw.keyword) ||
    decide (kwTokensOf kw.keyword = ∅)

/-- `Math.max(1, Math.log10(searchVolume + 10))` — the relevance weight of
one keyword. -/
noncomputable def keywordWeightOf (kw : Keyword) : ℝ :=
  max 1 (Real.logb 10 ((kw.searchVolume : ℝ) + 10))

/-- The empty-keywords fallback record shared by the two early returns of
`enrichClusterWithRelevance`. -/
noncomputable def emptyEnriched (cluster : Cluster) (removed : ℕ) : Cluster :=
  let fallbackRelevance : ℝ := max 0 (min 1 (cluster.relevanceScore.getD (DEFAULT_RELEVANCE_SCORE : ℝ)))
  { cluster with
    keywords := []
    keywordCount := 0
    totalSearchVolume := 0
    avgSearchVolume := 0
    avgCompetition := "unknown"
    relevanceScore := some ((round (fallbackRelevance * 100) : ℤ) / 100)
    clusterValueScore := ((calculateClusterValue [] fallbackRelevance : ℤ) : ℝ)
    removedKeywords := removed }

/-- `enrichClusterWithRelevance`. Returns `none` where the source returns
`null` (cluster dropped). -/
noncomputable def enrichClusterWithRelevance (cluster : Cluster) (ctxText : String)
    (ctxTokens : Finset String) (allowRemoval hasContext : Bool) : Option Cluster :=
  let keywords := cluster.keywords
  if keywords.isEmpty then
    if allowRemoval && hasContext then none
    else some (emptyEnriched cluster (if allowRemoval then cluster.keywordCount else cluster.removedKeywords))
  else
    let keptKeywords := keywords.filter (shouldKeepKw allowRemoval hasContext ctxText ctxTokens)
    let removedKeywords := keywords.length - keptKeywords.length
    let workingKeywords := if allowRemoval then keptKeywords else keywords
    if workingKeywords.isEmpty then
      if hasContext then none
      else some (emptyEnriched cluster (if allowRemoval then removedKeywords else cluster.removedKeywords))
    else
      let sortedKeywords := sortKeywordsByVolume workingKeywords
      let totalSearchVolume := calculateTotalVolume sortedKeywords
      let keywordCount := sortedKeywords.length
      let avgSearchVolume := if 0 < keywordCount then round ((totalSearchVolume : ℚ) / (keywordCount : ℚ)) else 0
      let avgCompetition := calculateAvgCompetition sortedKeywords
      let relevanceScore : ℝ :=
        if !hasContext then
          let existing : ℝ := cluster.relevanceScore.getD (DEFAULT_RELEVANCE_SCORE : ℝ)
          max 0 (min 1 (if existing = 0 then (DEFAULT_RELEVANCE_SCORE : ℝ) else existing))
        else
          let workingScores := workingKeywords.map (fun kw =>
            keywordScoreOf hasContext ctxText ctxTokens kw.keyword)
          let totalWeight0 : ℝ := (workingKeywords.map keywordWeightOf).sum
          let totalWeight : ℝ := if totalWeight0 = 0 then (workingScores.length : ℝ) else totalWeight0
          let weightedScore : ℝ := (workingKeywords.map (fun kw =>
            ((keywordScoreOf hasContext ctxText ctxTokens kw.keyword : ℚ) : ℝ) * keywordWeightOf kw)).sum
          let averageScore := weightedScore / totalWeight
          let bestScore : ℝ := ((workingScores.foldl jsMax 0 : ℚ) : ℝ)
          min 1 (averageScore * (7/10) + bestScore * (3/10))
      let normalizedRelevance : ℝ := max 0 (min 1 relevanceScore)
      let clusterValueScore := calculateClusterValue sortedKeywords normalizedRelevance
      let pillarTopic := if !sortedKeywords.isEmpty then selectPillarTopic sortedKeywords
        else cluster.pillarTopic
      some { cluster with
        pillarTopic := pillarTopic
        keywords := sortedKeywords
        keywordCount := keywordCount
        totalSearchVolume := totalSearchVolume
        avgSearchVolume := avgSearchVolume
        avgCompetition := avgCompetition
        relevanceScore := some ((round (normalizedRelevance * 100) : ℤ) / 100)
        clusterValueScore := ((clusterValueScore : ℤ) : ℝ)
        removedKeywords := if allowRemoval then removedKeywords else cluster.removedKeywords }

structure RelevanceResult where
  clusters : List Cluster
  removedClusters : ℕ
  removedKeywords : ℕ
  contextAvailable : Bool

/-- `applyRelevanceScores`. -/
noncomputable def applyRelevanceScores (clusters : List Cluster) (ctx : WebsiteContext)
    (allowRemoval : Bool) : RelevanceResult :=
  if clusters.isEmpty then ⟨[], 0, 0, false⟩
  else
    let contextInfo := buildRelevanceContext ctx
    let hasContext : Bool := decide (0 < contextInfo.2.card)
    let step := fun (acc : List Cluster × ℕ × ℕ) (cluster : Cluster) =>
      match enrichClusterWithRelevance cluster contextInfo.1 contextInfo.2 allowRemoval hasContext with
      | none => (acc.1, acc.2.1 + 1, acc.2.2)
      | some enriched =>
        let removedKw := if allowRemoval then acc.2.2 + enriched.removedKeywords else acc.2.2
        let meetsSizeRequirement :=
          if allowRemoval then MIN_CLUSTER_SIZE ≤ enriched.keywordCount
          else 0 < enriched.keywordCount
        if meetsSizeRequirement then (acc.1 ++ [enriched], acc.2.1, removedKw)
        else (acc.1, acc.2.1 + 1, removedKw)
    let result := clusters.foldl step ([], 0, 0)
    ⟨result.1, result.2.1, result.2.2, hasContext⟩

/-! ### Sorting, ranking and narratives -/

/-- The comparator of `sortAndRankClusters` as a JS-style difference value:
value-score difference when its magnitude exceeds 1e-4, else relevance
difference (same threshold), else total-volume difference, else
keyword-count difference. -/
noncomputable def rankCompare (a b : Cluster) : ℝ :=
  let scoreDiff := b.clusterValueScore - a.clusterValueScore
  if 1/10000 < |scoreDiff| then scoreDiff
  else
    let relevanceDiff := b.relevanceScore.getD 0 - a.relevanceScore.getD 0
    if 1/10000 < |relevanceDiff| then relevanceDiff
    else
      let volumeDiff := ((b.totalSearchVolume - a.totalSearchVolume : ℤ) : ℝ)
      if volumeDiff ≠ 0 then volumeDiff
      else ((b.keywords.length : ℝ) - (a.keywords.length : ℝ))

/-- Attach ranks 1.. to the sorted list. -/
def attachRanks : ℕ → List Cluster → List Cluster
  | _, [] => []
  | n, c :: cs => { c with rank := some (n + 1) } :: attachRanks (n + 1) cs

/-- `sortAndRankClusters`: stable sort by the comparator, then
`rank = index + 1`. -/
noncomputable def sortAndRankClusters (clusters : List Cluster) : List Cluster :=
  attachRanks 0 (jsSortBy (fun a b => decide (rankCompare a b ≤ 0)) clusters)

/-- `extractTopKeywordPhrases`. -/
def extractTopKeywordPhrases (c : Cluster) (limit : ℕ) : List String :=
  ((c.keywords.map (fun kw => jsTrim kw.keyword)).filter (fun s => s ≠ "")).take limit

/-- `formatKeywordList`. -/
def formatKeywordList (keywords : List String) : String :=
  let unique := jsDedup (keywords.filter (fun s => s ≠ ""))
  match unique with
  | [] => ""
  | [single] => single
  | [first, second] => first ++ " and " ++ second
  | _ =>
    let initial := jsJoin ", " (unique.dropLast)
    initial ++ ", and " ++ (unique.getLast?.getD "")

/-- `summarizeWebsiteContext`. -/
def summarizeWebsiteContext (ctx : WebsiteContext) : String :=
  let candidates := ([ctx.title, ctx.description, ctx.url].map jsTrim).filter (fun s => s ≠ "")
  match candidates with
  | [] => ""
  | summary :: _ =>
    if 140 < summary.length then String.mk (summary.data.take 137) ++ "..." else summary

/-- `buildFallbackClusterDescription`. -/
def buildFallbackClusterDescription (c : Cluster) (ctx : WebsiteContext) : String :=
  let baseTopic := if jsTrim c.pillarTopic ≠ "" then jsTrim c.pillarTopic else "this topic"
  let topKeywords := extractTopKeywordPhrases c 4
  let primaryKeyword := topKeywords.headD baseTopic
  let supportingKeywords := (topKeywords.drop 1).filter
    (fun k => jsLower k ≠ jsLower primaryKeyword)
  let description := "This cluster groups searches about " ++ primaryKeyword ++ "."
  let supportingText := formatKeywordList supportingKeywords
  let description2 := if supportingText ≠ "" then
      description ++ " Related queries include " ++ supportingText ++ "." else description
  let siteSummary := summarizeWebsiteContext ctx
  if siteSummary ≠ "" then
    description2 ++ " Align your coverage with what people expect from " ++ siteSummary ++ "."
  else
    description2 ++ " Emphasize clear explanations and practical examples to satisfy search intent."

/-- `buildFallbackClusterStrategy`. -/
def buildFallbackClusterStrategy (c : Cluster) (ctx : WebsiteContext) : String :=
  let baseTopic := if jsTrim c.pillarTopic ≠ "" then jsTrim c.pillarTopic else "the main topic"
  let topKeywords := extractTopKeywordPhrases c 5
  let primaryKeyword := topKeywords.headD baseTopic
  let supportingKeywords := ((topKeywords.drop 1).take 3).filter
    (fun k => jsLower k ≠ jsLower primaryKeyword)
  let supportingText := formatKeywordList supportingKeywords
  let parts1 := ["Create an authoritative piece focused on " ++ primaryKeyword ++ "."]
  let parts2 := if supportingText ≠ "" then
      parts1 ++ ["Structure the content to answer related searches like " ++ supportingText ++ "."]
    else parts1
  let siteSummary := summarizeWebsiteContext ctx
  let parts3 := if siteSummary ≠ "" then
      parts2 ++ ["Demonstrate how " ++ siteSummary ++
        " solves the reader's problem and include proof of expertise."]
    else parts2 ++ ["Incorporate real examples, data, or case studies from your brand to build authority."]
  jsJoin " " parts3

/-- `applyClusterNarratives`: fill blank AI fields with the deterministic
narratives; keyword membership is untouched. -/
def applyClusterNarratives (clusters : List Cluster) (ctx : WebsiteContext) : List Cluster :=
  clusters.map (fun c =>
    let needsDescription := match c.aiDescription with
      | none => true
      | some s => jsTrim s = ""
    let c1 := if needsDescription then
        { c with aiDescription := some (buildFallbackClusterDescription c ctx) } else c
    let needsStrategy := match c1.aiContentStrategy with
      | none => true
      | some s => jsTrim s = ""
    if needsStrategy then
      { c1 with aiContentStrategy := some (buildFallbackClusterStrategy c1 ctx) } else c1)

/-! ### `clusterKeywords`

The k-means / DBSCAN / semantic / hybrid algorithms live in external
packages (`ml-kmeans`, `density-clustering`) and the Gemini enhancement
is a remote service, so the embedding takes their outputs as parameters:
`algClusters` is whatever the selected algorithm produced on
`keywordData`, `reClusters` the re-clustering used when too few clusters
remain, and `aiTransform` the combined effect of the (try/catch-guarded)
Gemini regroup/scrutiny/enhancement calls — the identity when AI is
unavailable. Every claim proved about `clusterKeywords` holds for all
values of these parameters. -/

structure ClusterOptions where
  algorithm : String := "hybrid"
  minClusterSize : ℕ := MIN_CLUSTER_SIZE
  useAI : Bool := true

noncomputable def clusterKeywords (algClusters reClusters : List Cluster)
    (aiTransform : List Cluster → List Cluster) (keywordData : List Keyword)
    (websiteContext : WebsiteContext) (opts : ClusterOptions) : List Cluster :=
  if keywordData.isEmpty then []
  else if keywordData.length < opts.minClusterSize then
    let singleCluster := createClusterObject 1 keywordData "single"
    let relevanceResult := applyRelevanceScores [singleCluster] websiteContext true
    if 0 < relevanceResult.clusters.length then relevanceResult.clusters else [singleCluster]
  else
    let clusters0 := algClusters.filter (fun c => opts.minClusterSize ≤ c.keywords.length)
    let clusters1 :=
      if clusters0.length < MIN_CLUSTERS ∧ 20 < keywordData.length then
        reClusters.filter (fun c => opts.minClusterSize ≤ c.keywords.length)
      else clusters0
    let clusters2 := (ensureUniqueKeywords clusters1).filter
      (fun c => opts.minClusterSize ≤ c.keywords.length)
    let relevanceResult := applyRelevanceScores clusters2 websiteContext true
    let clusters3 := relevanceResult.clusters
    if clusters3.isEmpty then []
    else
      let clusters4 := sortAndRankClusters clusters3
      let clusters5 := if opts.useAI then aiTransform clusters4 else clusters4
      let clusters6 := ensureUniqueKeywords clusters5
      let postAi := applyRelevanceScores clusters6 websiteContext false
      let clusters7 := sortAndRankClusters postAi.clusters
      applyClusterNarratives clusters7 websiteContext

/-! ### Concrete instances for C3 and C5 -/

/-- C3 example: a keyword text occurring in two clusters, whose affinity to
the second pillar (3/8) strictly exceeds the affinity to the first (5/14)
but by less than the 0.02 stealing threshold. -/
def kwSharedC3 : Keyword := ⟨"a b c d e f g h i j", 100, "medium", 1, 2⟩

def kwFill1C3 : Keyword := ⟨"f1a", 50, "low", 1, 2⟩
def kwFill2C3 : Keyword := ⟨"f2a", 40, "low", 1, 2⟩
def kwFill3C3 : Keyword := ⟨"x1", 10, "low", 1, 2⟩
def kwFill4C3 : Keyword := ⟨"x2", 9, "low", 1, 2⟩

noncomputable def clusterC3a : Cluster :=
  { id := 1, pillarTopic := "p a b c d e q r s",
    keywords := [kwSharedC3, kwFill1C3, kwFill2C3],
    totalSearchVolume := 190, avgSearchVolume := 63, avgCompetition := "low",
    clusterValueScore := 0, algorithm := "hybrid", keywordCount := 3 }

noncomputable def clusterC3b : Cluster :=
  { id := 2, pillarTopic := "t a b c d e f u v w x y",
    keywords := [kwSharedC3, kwFill3C3, kwFill4C3],
    totalSearchVolume := 119, avgSearchVolume := 40, avgCompetition := "low",
    clusterValueScore := 0, algorithm := "hybrid", keywordCount := 3 }

/-- C5 example: four keywords, a `minClusterSize` of 6 (so the list is
"too small to cluster"), and a context that matches three of the keywords
but not "car insurance". -/
def kwZdC5 : Keyword := ⟨"zug dental", 100, "low", 1, 2⟩
def kwDcC5 : Keyword := ⟨"dental care", 90, "low", 1, 2⟩
def kwCzC5 : Keyword := ⟨"care zug", 80, "low", 1, 2⟩
def kwCarC5 : Keyword := ⟨"car insurance", 70, "high", 1, 2⟩

def kwsC5 : List Keyword := [kwZdC5, kwDcC5, kwCzC5, kwCarC5]

def ctxC5 : WebsiteContext := { url := "", title := "zug dental care", description := "" }

def optsC5 : ClusterOptions := { algorithm := "hybrid", minClusterSize := 6, useAI := true }

def kwsC5w : List Keyword := [kwZdC5, kwDcC5]

/-! ### Job orchestrator (`processResearch` / `updateJob`)

The claim-relevant fields of a job record and the sequence of
`updateJob` calls `processResearch` performs. The initial
`updateJob(job, { language })` touches none of these fields and is
omitted; an exception can interrupt the success sequence after any
prefix, upon which the catch block applies the failure update. -/

structure JobRecord where
  progress : ℕ
  status : String
  step : String
deriving DecidableEq, Repr

structure JobUpdate where
  progress : Option ℕ := none
  status : Option String := none
  step : Option String := none

/-- `updateJob(job, updates)` = `Object.assign(job, updates)` (plus an
`updatedAt` timestamp, not modelled). -/
def updateJob (job : JobRecord) (u : JobUpdate) : JobRecord :=
  { progress := u.progress.getD job.progress
    status := u.status.getD job.status
    step := u.step.getD job.step }

/-- The job as created by the POST handler. -/
def initialJob : JobRecord := { progress := 0, status := "processing", step := "initializing" }

/-- The `updateJob` calls of `processResearch` on the success path, in
order. -/
def successUpdates : List JobUpdate :=
  [ { progress := some 5, step := some "validating website" },
    { progress := some 10, step := some "scanning website content" },
    { progress := some 30, step := some "extracting keywords with AI" },
    { progress := some 50, step := some "fetching keyword metrics from Google Ads" },
    { progress := some 70, step := some "building intelligent topic clusters" },
    { progress := some 90, step := some "finalizing results" },
    { progress := some 100, status := some "completed", step := some "completed" } ]

/-- The catch-block update: `status: 'failed'`, `progress: 0`. -/
def failureUpdate : JobUpdate := { progress := some 0, status := some "failed" }

/-- All states a reader can observe: the job after creation and after each
applied update. -/
def scanStates (j : JobRecord) : List JobUpdate → List JobRecord
  | [] => [j]
  | u :: us => j :: scanStates (updateJob j u) us

/-- The observable state sequence of a job whose pipeline performs the
first `k` success updates and then (when `fails`) hits the catch block. -/
def processTrace (k : ℕ) (fails : Bool) : List JobRecord :=
  scanStates initialJob ((successUpdates.take k) ++ (if fails then [failureUpdate] else []))

/-- A kernel-reducing decision procedure for `List.Chain'` (the one from
the library is stated with `Eq.rec` and does not evaluate). -/
def chainDec {α : Type} (R : α → α → Prop) [DecidableRel R] : ∀ l : List α, Decidable (List.Chain' R l)
  | [] => isTrue List.chain'_nil
  | [a] => isTrue (List.chain'_singleton a)
  | a :: b :: l =>
    haveI := chainDec R (b :: l)
    decidable_of_iff (R a b ∧ List.Chain' R (b :: l)) List.chain'_cons.symm

instance {α : Type} (R : α → α → Prop) [DecidableRel R] (l : List α) : Decidable (List.Chain' R l) :=
  chainDec R l

/-! ### Rate limiter (`rateLimiter` middleware in research.js)

Per-IP state is the stored timestamp list (`requestCounts.get(ip)`), in
milliseconds. On each request the middleware filters to the last hour;
if 10 or more survive it rejects (HTTP 429) with
`retryAfter = Math.ceil((requests[0] + 3600000 - now) / 1000)` and
leaves the stored list untouched; otherwise it stores the filtered list
plus the current time and admits. -/

def RATE_WINDOW_MS : ℤ := 3600000

def REQUEST_LIMIT : ℕ := 10

/-- One middleware invocation for one IP: returns
(admitted?, new stored list, retryAfter on rejection). -/
def rateStep (stored : List ℤ) (now : ℤ) : Bool × List ℤ × Option ℤ :=
  let requests := stored.filter (fun t => decide (now - RATE_WINDOW_MS < t))
  if REQUEST_LIMIT ≤ requests.length then
    (false, stored, some ⌈(((requests.headD 0 + RATE_WINDOW_MS - now : ℤ) : ℚ) / 1000)⌉)
  else
    (true, requests ++ [now], none)

/-- The stored list after a sequence of requests at the given times. -/
def runLimiter (stored : List ℤ) : List ℤ → List ℤ
  | [] => stored
  | t :: ts => runLimiter (rateStep stored t).2.1 ts

/-- The subsequence of request times that are admitted. -/
def admittedTimes (stored : List ℤ) : List ℤ → List ℤ
  | [] => []
  | t :: ts =>
    let r := rateStep stored t
    (if r.1 then [t] else []) ++ admittedTimes r.2.1 ts

/-! ### Scraper page budget (research.js + scraper part)

`processResearch` builds the scraper options with
`maxPages: options.maxPages || 20` -- there is no clamping of the value to
[1,100] anywhere on the backend (the only `Math.min(..., 100)` lives in the
frontend's app.js). The scraper loop is
`while (pagesToVisit.length > 0 && visitedUrls.size < maxPages)`, visiting
each URL at most once; links are collected only from the first page and
truncated to `maxPages - 1` after de-duplication. -/

/-- `options.maxPages || 20`: `undefined` and `0` are falsy. -/
def effectiveMaxPages (o : Option ℤ) : ℤ :=
  match o with
  | none => 20
  | some v => if v = 0 then 20 else v

/-- The scraper while-loop: pop the frontier while the visited count is
below `maxPages`, skipping already-visited URLs. -/
def crawlLoop (maxPages : ℤ) : List String → List String → List String
  | [], visited => visited
  | u :: rest, visited =>
    if (visited.length : ℤ) < maxPages then
      if u ∈ visited then crawlLoop maxPages rest visited
      else crawlLoop maxPages rest (visited ++ [u])
    else visited

/-- The set of pages the scraper visits: the seed page first (when the
budget admits it), then the first page's links (de-duplicated and cut to
`maxPages - 1`) when link following is on and the first fetch succeeded. -/
def scrapeVisited (maxPages : ℤ) (followLinks firstPageOk : Bool) (seed : String)
    (firstPageLinks : List String) : List String :=
  if 0 < maxPages then
    let frontier := if followLinks && firstPageOk then
        (jsDedup firstPageLinks).take (maxPages - 1).toNat
      else []
    crawlLoop maxPages frontier [seed]
  else []

/-! ### CSV export (`toCSV` in google-ads-improved.js)

`toCSV` flattens `data.clusters` into one record per keyword per cluster
(in order), with `cluster_value_score: cluster.clusterValueScore.toFixed(2)`,
and feeds them to a json2csv `Parser` with nine labelled fields. The CSV is
one header row followed by the records. The exporter consumes the job's
JSON result, so cluster scores are plain numbers here (ℚ); the rendering of
the other numeric fields is idealized, which the claim does not constrain. -/

structure CSVCluster where
  id : ℤ
  pillarTopic : String
  keywords : List Keyword
  clusterValueScore : ℚ
  totalSearchVolume : ℤ
deriving DecidableEq, Repr

structure ExportData where
  clusters : List CSVCluster
deriving DecidableEq, Repr

/-- Idealized decimal rendering of a rational (only used for fields whose
exact text the claim does not constrain). -/
def ratToString (q : ℚ) : String :=
  toString q.num ++ (if q.den = 1 then "" else "/" ++ toString q.den)

/-- Exactly two decimal digits. -/
def twoFrac (n : ℕ) : String := String.mk [Nat.digitChar (n / 10 % 10), Nat.digitChar (n % 10)]

/-- `Number.prototype.toFixed(2)`: round to the nearest multiple of 1/100,
ties toward the larger value (ECMA-262), then print with exactly two
fractional digits. Mathlib's `round` is the same half-up rounding. -/
def toFixed2 (q : ℚ) : String :=
  let m : ℤ := round (q * 100)
  (if m < 0 then "-" else "") ++ toString (m.natAbs / 100) ++ "." ++ twoFrac (m.natAbs % 100)

/-- The nine field labels, in order. -/
def csvHeader : List String :=
  ["Cluster ID", "Pillar Topic", "Keyword", "Search Volume", "Competition",
   "CPC Low", "CPC High", "Cluster Value Score", "Cluster Total Volume"]

/-- One data record, in field order. -/
def keywordRow (c : CSVCluster) (k : Keyword) : List String :=
  [toString c.id, c.pillarTopic, k.keyword, toString k.searchVolume, k.competition,
   ratToString k.cpc, ratToString k.cpcHigh, toFixed2 c.clusterValueScore,
   toString c.totalSearchVolume]

/-- The CSV as a row list: header, then one row per keyword per cluster. -/
def toCSVRows (d : ExportData) : List (List String) :=
  csvHeader :: d.clusters.flatMap (fun c => c.keywords.map (fun k => keywordRow c k))

/-- json2csv default quoting. -/
def csvQuote (s : String) : String :=
  "\"" ++ String.mk (s.data.flatMap (fun ch => if ch = '"' then ['"', '"'] else [ch])) ++ "\""

/-- The serialized CSV text. -/
def toCSV (d : ExportData) : String :=
  jsJoin "\n" ((toCSVRows d).map (fun row => jsJoin "," (row.map csvQuote)))

/-- The claim's formula for C4: identical to `calculateClusterValue`
except that the relevance component is the raw `relevanceScore * 25`,
without the code's `Math.max(0, Math.min(1, relevanceScore))` clamp. -/
noncomputable def clusterValueClaimFormula (kws : List Keyword) (relevanceScore : ℝ) : ℤ :=
  if kws.isEmpty then 0
  else
    let n : ℝ := (kws.length : ℝ)
    let totalVolume : ℝ := ((calculateTotalVolume kws : ℤ) : ℝ)
    let avgVolume : ℝ := totalVolume / n
    let totalVolumeScore := min 40 (Real.logb 10 (totalVolume + 1) * 20)
    let avgVolumeScore := min 25 (Real.log (avgVolume + 1) * 10)
    let avgCompetitionValue := ((kws.map (fun k => ((competitionValue k.competition : ℚ) : ℝ))).sum) / n
    let competitionNormalized := 1 - min 1 (max 0 ((avgCompetitionValue - 1) / 2))
    let competitionScore := max 0 (min 20 (competitionNormalized * 20))
    let sizeScore := min 10 (Real.log (1 + n) * 4)
    let relevanceComponent := relevanceScore * 25
    round (min 100 (max 0
      (totalVolumeScore + avgVolumeScore + competitionScore + sizeScore + relevanceComponent)))

def kwC4 : Keyword := { keyword := "k", searchVolume := 0, competition := "low", cpc := 0, cpcHigh := 0 }

def kwsC4 : List Keyword := [kwC4]

/-! ### The actual ownership policy of phase 1 (for C3)

The owner of a normalised keyword text is NOT the argmax of pillar-topic
similarity: it is the result of a left-to-right scan in which the first
cluster containing the text claims it and a later cluster steals it only
when its affinity exceeds the current owner's by strictly more than 0.02. -/

/-- One occurrence `(clusterIndex, pillarTopic, keyword)` folded into the
owner of text `t`. -/
def ownerStep (t : String) (acc : Option (ℕ × ℚ)) (tr : ℕ × String × Keyword) : Option (ℕ × ℚ) :=
  if normKey tr.2.2.keyword = t ∧ normKey tr.2.2.keyword ≠ "" then
    let affinity := calculateSemanticSimilarity tr.2.2.keyword tr.2.1
    match acc with
    | none => some (tr.1, affinity)
    | some (j, a) => if a + 1/50 < affinity then some (tr.1, affinity) else some (j, a)
  else acc

/-- All keyword occurrences of a cluster list, in processing order. -/
def keywordStream (clusters : List Cluster) : List (ℕ × String × Keyword) :=
  clusters.enum.flatMap (fun p => p.2.keywords.map (fun kw => (p.1, p.2.pillarTopic, kw)))

/-- The final owner of text `t` under the sequential 0.02-threshold rule. -/
def ownerFold (clusters : List Cluster) (t : String) : Option (ℕ × ℚ) :=
  (keywordStream clusters).foldl (ownerStep t) none

theorem jsMin_eq_min (a b : ℚ) : jsMin a b = min a b := (min_def a b).symm

theorem jsMax_eq_max (a b : ℚ) : jsMax a b = max a b := by
  rw [jsMax, max_def]

theorem countIn_append_one (l : List Keyword) (kw : Keyword) (t : String) :
    countIn (l ++ [kw]) t = countIn l t + (if normKey kw.keyword = t then 1 else 0) := by
  simp only [countIn, List.filter_append]
  by_cases h : normKey kw.keyword = t <;> simp [h]

theorem countIn_filter_self (l : List Keyword) (t : String) :
    countIn (l.filter (fun e => normKey e.keyword ≠ t)) t = 0 := by
  simp only [countIn, List.filter_filter]
  rw [List.length_eq_zero]
  apply List.filter_eq_nil_iff.mpr
  intro kw _
  by_cases h : normKey kw.keyword = t <;> simp [h]

theorem countIn_filter_other (l : List Keyword) {t s : String} (h : s ≠ t) :
    countIn (l.filter (fun e => normKey e.keyword ≠ t)) s = countIn l s := by
  simp only [countIn, List.filter_filter]
  congr 1
  apply List.filter_congr
  intro kw _
  by_cases hk : normKey kw.keyword = s <;> simp [hk, h]

theorem listUpdate_length (ls : List (List Keyword)) (i : ℕ) (f : List Keyword → List Keyword) :
    (listUpdate ls i f).length = ls.length := by
  induction ls generalizing i with
  | nil => rfl
  | cons l ls ih => cases i <;> simp [listUpdate, ih]

theorem listUpdate_getD_self (ls : List (List Keyword)) (i : ℕ) (f : List Keyword → List Keyword)
    (hi : i < ls.length) :
    (listUpdate ls i f).getD i [] = f (ls.getD i []) := by
  induction ls generalizing i with
  | nil => exact absurd hi (by simp)
  | cons l ls ih =>
    cases i with
    | zero => rfl
    | succ n => exact ih n (by simpa using hi)

theorem listUpdate_getD_other (ls : List (List Keyword)) (i k : ℕ)
    (f : List Keyword → List Keyword) (hne : k ≠ i) :
    (listUpdate ls i f).getD k [] = ls.getD k [] := by
  induction ls generalizing i k with
  | nil => rfl
  | cons l ls ih =>
    cases i with
    | zero =>
      cases k with
      | zero => exact absurd rfl hne
      | succ m => rfl
    | succ n =>
      cases k with
      | zero => rfl
      | succ m => exact ih n m (by omega)

theorem ownersOk_claim (lists : List (List Keyword)) (owners : String → Option (ℕ × ℚ))
    (i : ℕ) (kw : Keyword) (aff : ℚ)
    (h : OwnersOkL lists owners) (hi : i < lists.length)
    (h0 : owners (normKey kw.keyword) = none) :
    OwnersOkL (listUpdate lists i (fun l => l ++ [kw]))
      (fun t => if t = normKey kw.keyword then some (i, aff) else owners t) := by
  intro t
  constructor
  · intro hnone k
    simp only at hnone
    by_cases htt : t = normKey kw.keyword
    · rw [if_pos htt] at hnone; exact absurd hnone (by simp)
    · rw [if_neg htt] at hnone
      by_cases hki : k = i
      · subst hki
        rw [listUpdate_getD_self lists k _ hi, countIn_append_one, (h t).1 hnone k]
        have hne : ¬ (normKey kw.keyword = t) := fun hh => htt hh.symm
        simp [hne]
      · rw [listUpdate_getD_other lists i k _ hki]
        exact (h t).1 hnone k
  · intro j a hsome
    simp only at hsome
    by_cases htt : t = normKey kw.keyword
    · rw [if_pos htt] at hsome
      simp only [Option.some.injEq, Prod.mk.injEq] at hsome
      obtain ⟨hj, ha⟩ := hsome
      subst hj
      refine ⟨by simpa [listUpdate_length] using hi, ?_⟩
      intro k
      have hz : ∀ m, countIn (lists.getD m []) t = 0 := (h t).1 (htt ▸ h0)
      by_cases hki : k = i
      · subst hki
        rw [listUpdate_getD_self lists k _ hi, countIn_append_one, hz k, if_pos htt.symm]
        simp
      · rw [listUpdate_getD_other lists i k _ hki, hz k, if_neg hki]
    · rw [if_neg htt] at hsome
      obtain ⟨hjlen, hcnt⟩ := (h t).2 j a hsome
      refine ⟨by simpa [listUpdate_length] using hjlen, ?_⟩
      intro k
      by_cases hki : k = i
      · subst hki
        rw [listUpdate_getD_self lists k _ hi, countIn_append_one, hcnt k]
        have hne : ¬ (normKey kw.keyword = t) := fun hh => htt hh.symm
        simp [hne]
      · rw [listUpdate_getD_other lists i k _ hki]
        exact hcnt k

theorem ownersOk_steal (lists : List (List Keyword)) (owners : String → Option (ℕ × ℚ))
    (i j0 : ℕ) (a0 : ℚ) (kw : Keyword) (aff : ℚ)
    (h : OwnersOkL lists owners) (hi : i < lists.length)
    (h0 : owners (normKey kw.keyword) = some (j0, a0)) :
    OwnersOkL
      (listUpdate (listUpdate lists j0 (fun l =>
        l.filter (fun e => normKey e.keyword ≠ normKey kw.keyword))) i (fun l => l ++ [kw]))
      (fun t => if t = normKey kw.keyword then some (i, aff) else owners t) := by
  obtain ⟨hj0, hcnt0⟩ := (h (normKey kw.keyword)).2 j0 a0 h0
  have hi2 : i < (listUpdate lists j0 (fun l =>
      l.filter (fun e => normKey e.keyword ≠ normKey kw.keyword))).length := by
    rwa [listUpdate_length]
  -- counting in the inner (filtered) update, for any text t and index k
  have hinner : ∀ t k,
      countIn ((listUpdate lists j0 (fun l =>
        l.filter (fun e => normKey e.keyword ≠ normKey kw.keyword))).getD k []) t
      = if t = normKey kw.keyword ∧ k = j0 then 0 else countIn (lists.getD k []) t := by
    intro t k
    by_cases hkj : k = j0
    · subst hkj
      rw [listUpdate_getD_self lists k _ hj0]
      by_cases htt : t = normKey kw.keyword
      · subst htt; rw [countIn_filter_self]; simp
      · rw [countIn_filter_other _ htt]; simp [htt]
    · rw [listUpdate_getD_other lists j0 k _ hkj]; simp [hkj]
  intro t
  constructor
  · intro hnone k
    simp only at hnone
    by_cases htt : t = normKey kw.keyword
    · rw [if_pos htt] at hnone; exact absurd hnone (by simp)
    · rw [if_neg htt] at hnone
      have hold := (h t).1 hnone k
      have hne : ¬ (normKey kw.keyword = t) := fun hh => htt hh.symm
      by_cases hki : k = i
      · subst hki
        rw [listUpdate_getD_self _ k _ hi2, countIn_append_one, hinner t k,
          if_neg (fun hc => htt hc.1), hold, if_neg hne]
      · rw [listUpdate_getD_other _ i k _ hki, hinner t k,
          if_neg (fun hc => htt hc.1), hold]
  · intro j a hsome
    simp only at hsome
    by_cases htt : t = normKey kw.keyword
    · rw [if_pos htt] at hsome
      simp only [Option.some.injEq, Prod.mk.injEq] at hsome
      obtain ⟨hj, ha⟩ := hsome
      subst hj
      subst htt
      refine ⟨by simp [listUpdate_length, hi], ?_⟩
      intro k
      by_cases hki : k = i
      · subst hki
        rw [listUpdate_getD_self _ k _ hi2, countIn_append_one, hinner _ k, if_pos rfl]
        by_cases hkj : k = j0
        · simp [hkj]
        · rw [if_neg (by simp [hkj]), hcnt0 k, if_neg hkj]
          simp
      · rw [listUpdate_getD_other _ i k _ hki, hinner _ k, if_neg hki]
        by_cases hkj : k = j0
        · simp [hkj]
        · rw [if_neg (by simp [hkj]), hcnt0 k, if_neg hkj]
    · rw [if_neg htt] at hsome
      obtain ⟨hjlen, hcnt⟩ := (h t).2 j a hsome
      refine ⟨by simp [listUpdate_length, hjlen], ?_⟩
      intro k
      have hne : ¬ (normKey kw.keyword = t) := fun hh => htt hh.symm
      by_cases hki : k = i
      · subst hki
        rw [listUpdate_getD_self _ k _ hi2, countIn_append_one, hinner t k,
          if_neg (fun hc => htt hc.1), hcnt k, if_neg hne]
        simp
      · rw [listUpdate_getD_other _ i k _ hki, hinner t k,
          if_neg (fun hc => htt hc.1), hcnt k]

theorem assignStep_ok (pillar : String) (i : ℕ) (st : AssignState) (kw : Keyword)
    (hi : i < st.lists.length) (h : OwnersOk st) :
    OwnersOk (assignStep pillar i st kw) ∧
    (assignStep pillar i st kw).lists.length = st.lists.length := by
  simp only [assignStep]
  by_cases hn : normKey kw.keyword = ""
  · rw [if_pos hn]; exact ⟨h, rfl⟩
  · rw [if_neg hn]
    rcases ho : st.owners (normKey kw.keyword) with _ | ⟨j0, a0⟩
    · exact ⟨ownersOk_claim st.lists st.owners i kw _ h hi ho, by simp [listUpdate_length]⟩
    · dsimp only
      by_cases hsteal : a0 + 1/50 < calculateSemanticSimilarity kw.keyword pillar
      · rw [if_pos hsteal]
        exact ⟨ownersOk_steal st.lists st.owners i j0 a0 kw _ h hi ho,
          by simp [listUpdate_length]⟩
      · rw [if_neg hsteal]; exact ⟨h, rfl⟩

theorem foldl_assignStep_ok (pillar : String) (i : ℕ) (kws : List Keyword) (st : AssignState)
    (hi : i < st.lists.length) (h : OwnersOk st) :
    OwnersOk (kws.foldl (assignStep pillar i) st) ∧
    (kws.foldl (assignStep pillar i) st).lists.length = st.lists.length := by
  induction kws generalizing st with
  | nil => exact ⟨h, rfl⟩
  | cons kw kws ih =>
    obtain ⟨h1, h2⟩ := assignStep_ok pillar i st kw hi h
    obtain ⟨h3, h4⟩ := ih (assignStep pillar i st kw) (h2 ▸ hi) h1
    exact ⟨h3, h4.trans h2⟩

theorem foldl_assignClusterFold_ok (pairs : List (ℕ × Cluster)) (st : AssignState)
    (hb : ∀ p ∈ pairs, p.1 < st.lists.length) (h : OwnersOk st) :
    OwnersOk (pairs.foldl assignClusterFold st) ∧
    (pairs.foldl assignClusterFold st).lists.length = st.lists.length := by
  induction pairs generalizing st with
  | nil => exact ⟨h, rfl⟩
  | cons p ps ih =>
    obtain ⟨h1, h2⟩ := foldl_assignStep_ok p.2.pillarTopic p.1 p.2.keywords st
      (hb p (by simp)) h
    obtain ⟨h3, h4⟩ := ih (assignClusterFold st p)
      (fun q hq => by rw [assignClusterFold, h2]; exact hb q (by simp [hq])) h1
    exact ⟨h3, h4.trans h2⟩

theorem assignPhase_ok (cs : List Cluster) :
    OwnersOk (assignPhase cs) ∧ (assignPhase cs).lists.length = cs.length := by
  set st0 : AssignState :=
    AssignState.mk (cs.map (fun _ => [])) (fun _ => none) with hst0
  have h0 : OwnersOk st0 := by
    intro t
    refine ⟨fun _ k => ?_, fun j a hja => by simp [hst0] at hja⟩
    have hnil : ∀ (n : ℕ) (ds : List Cluster),
        (ds.map (fun _ => ([] : List Keyword))).getD n [] = [] := by
      intro n ds
      induction ds generalizing n with
      | nil => rfl
      | cons d ds ih => cases n with
        | zero => rfl
        | succ m => exact ih m
    rw [show st0.lists = cs.map (fun _ => ([] : List Keyword)) from rfl, hnil k cs]
    rfl
  have hb : ∀ p ∈ cs.enum, p.1 < st0.lists.length := by
    intro p hp
    rcases p with ⟨i, c⟩
    simpa [hst0] using (List.mem_enum hp).1
  obtain ⟨h1, h2⟩ := foldl_assignClusterFold_ok cs.enum st0 hb h0
  constructor
  · exact h1
  · rw [assignPhase]
    simpa [hst0] using h2

theorem sum_countIn_zero (ls : List (List Keyword)) (t : String)
    (h : ∀ k, countIn (ls.getD k []) t = 0) :
    (ls.map (fun l => countIn l t)).sum = 0 := by
  induction ls with
  | nil => rfl
  | cons l rest ih =>
    have h0 : countIn l t = 0 := h 0
    have hrest : ∀ k, countIn (rest.getD k []) t = 0 := fun k => h (k + 1)
    simp [h0, ih hrest]

theorem sum_countIn_indicator (ls : List (List Keyword)) (t : String) (j : ℕ)
    (h : ∀ k, countIn (ls.getD k []) t = if k = j then 1 else 0) (hj : j < ls.length) :
    (ls.map (fun l => countIn l t)).sum = 1 := by
  induction ls generalizing j with
  | nil => exact absurd hj (by simp)
  | cons l rest ih =>
    cases j with
    | zero =>
      have h0 : countIn l t = 1 := by simpa using h 0
      have hrest : ∀ k, countIn (rest.getD k []) t = 0 := fun k => by simpa using h (k + 1)
      simp [h0, sum_countIn_zero rest t hrest]
    | succ m =>
      have h0 : countIn l t = 0 := by simpa using h 0
      have hrest : ∀ k, countIn (rest.getD k []) t = if k = m then 1 else 0 := by
        intro k
        have := h (k + 1)
        simpa using this
      simp [h0, ih m hrest (by simpa using hj)]

/-- The total number of occurrences of a text across the phase-1 lists
is at most one. -/
theorem assignPhase_sum_le_one (cs : List Cluster) (t : String) :
    ((assignPhase cs).lists.map (fun l => countIn l t)).sum ≤ 1 := by
  obtain ⟨h, _⟩ := assignPhase_ok cs
  rcases ho : (assignPhase cs).owners t with _ | ⟨j, a⟩
  · rw [sum_countIn_zero _ t ((h t).1 ho)]; omega
  · obtain ⟨hj, hcnt⟩ := (h t).2 j a ho
    rw [sum_countIn_indicator _ t j hcnt hj]

theorem countIn_cons (k : Keyword) (l : List Keyword) (t : String) :
    countIn (k :: l) t = (if normKey k.keyword = t then 1 else 0) + countIn l t := by
  simp only [countIn, List.filter_cons]
  by_cases h : normKey k.keyword = t <;> simp [h, Nat.add_comm]

theorem count_normsOfK (l : List Keyword) (t : String) :
    List.count t (normsOfK l) = countIn l t := by
  induction l with
  | nil => rfl
  | cons k rest ih =>
    simp only [normsOfK] at ih ⊢
    rw [List.map_cons, List.count_cons, countIn_cons, ih]
    by_cases h : normKey k.keyword = t <;> simp [h, Nat.add_comm]

theorem insertBy_perm (le : α → α → Bool) (x : α) (l : List α) :
    (insertBy le x l).Perm (x :: l) := by
  induction l with
  | nil => exact List.Perm.refl _
  | cons y ys ih =>
    rw [insertBy]
    by_cases h : le y x
    · rw [if_pos h]
      exact (ih.cons y).trans (List.Perm.swap x y ys)
    · rw [if_neg h]

theorem jsSortBy_perm (le : α → α → Bool) (l : List α) : (jsSortBy le l).Perm l := by
  suffices hgen : ∀ (l acc : List α),
      (l.foldl (fun a x => insertBy le x a) acc).Perm (acc ++ l) by
    simpa using hgen l []
  intro l
  induction l with
  | nil => intro acc; simp
  | cons x xs ih =>
    intro acc
    have h1 := ih (insertBy le x acc)
    have h2 : (insertBy le x acc ++ xs).Perm (acc ++ x :: xs) := by
      have h3 := (insertBy_perm le x acc).append_right xs
      exact h3.trans (List.perm_middle.symm)
    rw [List.foldl_cons]
    exact h1.trans h2

theorem sortKeywordsByVolume_perm (l : List Keyword) :
    (sortKeywordsByVolume l).Perm l := jsSortBy_perm _ l

theorem createClusterObject_keywords (id : ℤ) (l : List Keyword) (alg : String) :
    (createClusterObject id l alg).keywords = sortKeywordsByVolume l := by
  simp only [createClusterObject]

theorem mergeAi_keywords (c base : Cluster) : (mergeAi c base).keywords = base.keywords := by
  rcases hd : c.aiDescription with _ | d <;> rcases hs : c.aiContentStrategy with _ | s2 <;>
    rcases he : c.aiEnhanced <;>
    simp only [mergeAi, hd, hs, he] <;> split_ifs <;> rfl

/-- Phase 2 accounting: the collected clusters and the orphans together
carry exactly the texts of the phase-1 lists. -/
theorem collectClusters_norms (pairs : List (Cluster × List Keyword)) :
    clustersNorms (collectClusters pairs).1 + ((normsOfK (collectClusters pairs).2 : Multiset String)) =
    ((pairs.map (fun p => (normsOfK p.2 : Multiset String))).sum) := by
  suffices hgen : ∀ (pairs : List (Cluster × List Keyword)) (acc : List Cluster × List Keyword),
      clustersNorms (pairs.foldl (fun acc p =>
        if MIN_CLUSTER_SIZE ≤ p.2.length then
          (acc.1 ++ [mergeAi p.1 (createClusterObject ((acc.1.length : ℤ) + 1) p.2
            (if p.1.algorithm ≠ "" then p.1.algorithm else "hybrid"))], acc.2)
        else (acc.1, acc.2 ++ p.2)) acc).1 +
      ((normsOfK (pairs.foldl (fun acc p =>
        if MIN_CLUSTER_SIZE ≤ p.2.length then
          (acc.1 ++ [mergeAi p.1 (createClusterObject ((acc.1.length : ℤ) + 1) p.2
            (if p.1.algorithm ≠ "" then p.1.algorithm else "hybrid"))], acc.2)
        else (acc.1, acc.2 ++ p.2)) acc).2 : Multiset String)) =
      clustersNorms acc.1 + ((normsOfK acc.2 : Multiset String)) +
        ((pairs.map (fun p => (normsOfK p.2 : Multiset String))).sum) by
    have := hgen pairs ([], [])
    simpa [collectClusters, clustersNorms, normsOfK] using this
  intro pairs
  induction pairs with
  | nil => intro acc; simp
  | cons p ps ih =>
    intro acc
    rw [List.foldl_cons, ih, List.map_cons, List.sum_cons]
    by_cases h : MIN_CLUSTER_SIZE ≤ p.2.length
    · rw [if_pos h]
      have hkeys : normsOfK (mergeAi p.1 (createClusterObject ((acc.1.length : ℤ) + 1) p.2
          (if p.1.algorithm ≠ "" then p.1.algorithm else "hybrid"))).keywords
          = normsOfK (sortKeywordsByVolume p.2) := by
        rw [mergeAi_keywords, createClusterObject_keywords]
      have hperm : (normsOfK (sortKeywordsByVolume p.2) : Multiset String)
          = (normsOfK p.2 : Multiset String) := by
        exact Multiset.coe_eq_coe.mpr ((sortKeywordsByVolume_perm p.2).map _)
      simp only [clustersNorms, List.map_append, List.map_cons, List.map_nil, List.sum_append,
        List.sum_cons, List.sum_nil, hkeys, hperm]
      -- rearrange the multiset sum
      simp only [add_zero]
      abel
    · rw [if_neg h]
      simp only [clustersNorms, normsOfK, List.map_append]
      rw [← Multiset.coe_add]
      abel

/-- Unfolding of one `mergeOrphans` step. -/
theorem mergeOrphans_cons (kw : Keyword) (rest : List Keyword) (res : List Cluster) :
    mergeOrphans (kw :: rest) res =
      mergeOrphans rest
        (match findBestClusterIndex kw res with
         | some i =>
           if ((res.get? i).map (fun c =>
               c.keywords.any (fun e => normKey e.keyword = normKey kw.keyword))).getD false then res
           else clusterListUpdate res i (fun c => { c with keywords := c.keywords ++ [kw] })
         | none => res) := rfl

/-- Phase 3 accounting: merging orphans never introduces texts beyond the
orphans themselves. -/
theorem mergeOrphans_norms (orph : List Keyword) (res : List Cluster) :
    clustersNorms (mergeOrphans orph res) ≤
      clustersNorms res + ((normsOfK orph : Multiset String)) := by
  induction orph generalizing res with
  | nil => simp [mergeOrphans]
  | cons kw rest ih =>
    have hupd : ∀ (res : List Cluster) (i : ℕ),
        clustersNorms (clusterListUpdate res i (fun c => { c with keywords := c.keywords ++ [kw] }))
          ≤ clustersNorms res + {normKey kw.keyword} := by
      intro res i
      induction res generalizing i with
      | nil => simp [clusterListUpdate, clustersNorms]
      | cons c cs ihc =>
        cases i with
        | zero =>
          simp only [clusterListUpdate, clustersNorms, List.map_cons, List.sum_cons]
          have hx : (normsOfK (c.keywords ++ [kw]) : Multiset String)
              = (normsOfK c.keywords : Multiset String) + {normKey kw.keyword} := by
            simp only [normsOfK, List.map_append, List.map_cons, List.map_nil]
            rw [← Multiset.coe_singleton, Multiset.coe_add]
          rw [hx]
          exact le_of_eq (by abel)
        | succ n =>
          simp only [clusterListUpdate, clustersNorms, List.map_cons, List.sum_cons]
          have hrec := ihc n
          simp only [clustersNorms] at hrec
          calc (normsOfK c.keywords : Multiset String) + _ ≤
              (normsOfK c.keywords : Multiset String) +
                (((cs.map (fun c => (normsOfK c.keywords : Multiset String))).sum) +
                  {normKey kw.keyword}) := add_le_add_left hrec _
            _ = (normsOfK c.keywords : Multiset String) +
                ((cs.map (fun c => (normsOfK c.keywords : Multiset String))).sum) +
                  {normKey kw.keyword} := by abel
    have htail : (normsOfK rest : Multiset String) ≤ (normsOfK (kw :: rest) : Multiset String) := by
      rw [show normsOfK (kw :: rest) = normKey kw.keyword :: normsOfK rest from rfl,
        ← Multiset.cons_coe]
      exact Multiset.le_cons_self _ _
    have hsingle : (normsOfK (kw :: rest) : Multiset String)
        = {normKey kw.keyword} + (normsOfK rest : Multiset String) := by
      rw [show normsOfK (kw :: rest) = normKey kw.keyword :: normsOfK rest from rfl,
        ← Multiset.cons_coe, ← Multiset.singleton_add]
    rw [mergeOrphans_cons]
    rcases hfb : findBestClusterIndex kw res with _ | i
    · simp only [hfb]
      calc clustersNorms (mergeOrphans rest res)
          ≤ clustersNorms res + (normsOfK rest : Multiset String) := ih res
        _ ≤ clustersNorms res + (normsOfK (kw :: rest) : Multiset String) :=
            add_le_add_left htail _
    · simp only [hfb]
      by_cases hdup : ((res.get? i).map (fun c =>
          c.keywords.any (fun e => normKey e.keyword = normKey kw.keyword))).getD false
      · rw [if_pos hdup]
        calc clustersNorms (mergeOrphans rest res)
            ≤ clustersNorms res + (normsOfK rest : Multiset String) := ih res
          _ ≤ clustersNorms res + (normsOfK (kw :: rest) : Multiset String) :=
              add_le_add_left htail _
      · rw [if_neg hdup]
        calc clustersNorms (mergeOrphans rest
              (clusterListUpdate res i (fun c => { c with keywords := c.keywords ++ [kw] })))
            ≤ clustersNorms (clusterListUpdate res i
                (fun c => { c with keywords := c.keywords ++ [kw] })) +
              (normsOfK rest : Multiset String) := ih _
          _ ≤ (clustersNorms res + {normKey kw.keyword}) +
              (normsOfK rest : Multiset String) := add_le_add_right (hupd res i) _
          _ = clustersNorms res + (normsOfK (kw :: rest) : Multiset String) := by
              rw [hsingle]; abel

theorem zip_snd_norms (cs : List Cluster) (ls : List (List Keyword))
    (h : cs.length = ls.length) :
    ((cs.zip ls).map (fun p => (normsOfK p.2 : Multiset String))).sum =
      (ls.map (fun l => (normsOfK l : Multiset String))).sum := by
  induction cs generalizing ls with
  | nil => cases ls with
    | nil => rfl
    | cons l ls2 => exact absurd h (by simp)
  | cons c cs2 ih =>
    cases ls with
    | nil => exact absurd h (by simp)
    | cons l ls2 =>
      simp only [List.zip_cons_cons, List.map_cons, List.sum_cons]
      rw [ih ls2 (by simpa using h)]

/-- The multiset of texts of the `ensureUniqueKeywords` output has no
duplicate: every normalised keyword text occurs at most once in the whole
output (across and within clusters). -/
theorem ensureUniqueKeywords_nodup (cs : List Cluster) :
    (clustersNorms (ensureUniqueKeywords cs)).Nodup := by
  have hcount : ∀ t, ((assignPhase cs).lists.map
      (fun l => (normsOfK l : Multiset String))).sum.count t ≤ 1 := by
    intro t
    have h1 := assignPhase_sum_le_one cs t
    have : (((assignPhase cs).lists.map (fun l => (normsOfK l : Multiset String))).sum).count t =
        ((assignPhase cs).lists.map (fun l => countIn l t)).sum := by
      induction (assignPhase cs).lists with
      | nil => rfl
      | cons l rest ih =>
        simp only [List.map_cons, List.sum_cons, Multiset.count_add, ih,
          Multiset.coe_count, count_normsOfK]
    rw [this]
    exact h1
  have hnodup : (((assignPhase cs).lists.map
      (fun l => (normsOfK l : Multiset String))).sum).Nodup := by
    rw [Multiset.nodup_iff_count_le_one]
    exact hcount
  have hle : clustersNorms (ensureUniqueKeywords cs) ≤
      ((assignPhase cs).lists.map (fun l => (normsOfK l : Multiset String))).sum := by
    rw [ensureUniqueKeywords]
    by_cases hempty : cs.isEmpty
    · rw [if_pos hempty]
      simp [clustersNorms]
    · rw [if_neg hempty]
      have hzip := zip_snd_norms cs (assignPhase cs).lists (assignPhase_ok cs).2.symm
      have hcollect := collectClusters_norms (cs.zip (assignPhase cs).lists)
      by_cases hbranch : !(collectClusters (cs.zip (assignPhase cs).lists)).2.isEmpty &&
          !(collectClusters (cs.zip (assignPhase cs).lists)).1.isEmpty
      · rw [if_pos hbranch]
        calc clustersNorms (mergeOrphans (collectClusters (cs.zip (assignPhase cs).lists)).2
              (collectClusters (cs.zip (assignPhase cs).lists)).1)
            ≤ clustersNorms (collectClusters (cs.zip (assignPhase cs).lists)).1 +
              (normsOfK (collectClusters (cs.zip (assignPhase cs).lists)).2 : Multiset String) :=
            mergeOrphans_norms _ _
          _ = ((cs.zip (assignPhase cs).lists).map
              (fun p => (normsOfK p.2 : Multiset String))).sum := hcollect
          _ = _ := hzip
      · rw [if_neg hbranch]
        calc clustersNorms (collectClusters (cs.zip (assignPhase cs).lists)).1
            ≤ clustersNorms (collectClusters (cs.zip (assignPhase cs).lists)).1 +
              (normsOfK (collectClusters (cs.zip (assignPhase cs).lists)).2 : Multiset String) :=
            le_add_of_nonneg_right (Multiset.zero_le _)
          _ = ((cs.zip (assignPhase cs).lists).map
              (fun p => (normsOfK p.2 : Multiset String))).sum := hcollect
          _ = _ := hzip
  exact Multiset.nodup_of_le hle hnodup

theorem clustersNorms_eq_flatten (cs : List Cluster) :
    clustersNorms cs = ((cs.map (fun c => normsOfK c.keywords)).flatten : List String) := by
  induction cs with
  | nil => rfl
  | cons c rest ih =>
    simp only [clustersNorms, List.map_cons, List.sum_cons, List.flatten_cons] at ih ⊢
    rw [ih, Multiset.coe_add]

/-- Multiset-nodup of the concatenated texts gives the pairwise-disjoint
claim shape. -/
theorem noShared_of_nodup (cs : List Cluster) (h : (clustersNorms cs).Nodup) :
    NoSharedKeyword cs := by
  rw [clustersNorms_eq_flatten, Multiset.coe_nodup, List.nodup_flatten] at h
  obtain ⟨_, hpair⟩ := h
  rw [NoSharedKeyword]
  have := (List.pairwise_map).mp hpair
  exact this.imp (fun hd => hd)

theorem clustersNorms_append (l : List Cluster) (c : Cluster) :
    clustersNorms (l ++ [c]) = clustersNorms l + (normsOfK c.keywords : Multiset String) := by
  simp [clustersNorms]

theorem enrich_norms_le (c : Cluster) (ctxText : String) (ctxTokens : Finset String)
    (ar hc : Bool) (c2 : Cluster)
    (h : enrichClusterWithRelevance c ctxText ctxTokens ar hc = some c2) :
    (normsOfK c2.keywords : Multiset String) ≤ (normsOfK c.keywords : Multiset String) := by
  simp only [enrichClusterWithRelevance] at h
  by_cases he : c.keywords.isEmpty
  · rw [if_pos he] at h
    by_cases har : ar && hc
    · rw [if_pos har] at h; cases h
    · rw [if_neg har] at h
      have : c2.keywords = [] := by
        cases h; rfl
      rw [this]
      exact Multiset.zero_le _
  · rw [if_neg he] at h
    by_cases hw : (if ar then
        c.keywords.filter (shouldKeepKw ar hc ctxText ctxTokens) else c.keywords).isEmpty
    · rw [if_pos hw] at h
      by_cases hhc : hc
      · rw [if_pos hhc] at h; cases h
      · rw [if_neg hhc] at h
        have : c2.keywords = [] := by cases h; rfl
        rw [this]
        exact Multiset.zero_le _
    · rw [if_neg hw] at h
      have hkeys : c2.keywords = sortKeywordsByVolume (if ar then
          c.keywords.filter (shouldKeepKw ar hc ctxText ctxTokens) else c.keywords) := by
        cases h; rfl
      rw [hkeys]
      have hperm : (normsOfK (sortKeywordsByVolume (if ar then
          c.keywords.filter (shouldKeepKw ar hc ctxText ctxTokens) else c.keywords)) : Multiset String)
          = (normsOfK (if ar then
          c.keywords.filter (shouldKeepKw ar hc ctxText ctxTokens) else c.keywords) : Multiset String) :=
        Multiset.coe_eq_coe.mpr ((sortKeywordsByVolume_perm _).map _)
      rw [hperm]
      by_cases har : ar
      · rw [if_pos har]
        have hsub : (c.keywords.filter (shouldKeepKw ar hc ctxText ctxTokens)).Sublist c.keywords :=
          List.filter_sublist _
        exact Multiset.coe_le.mpr ((hsub.map _).subperm)
      · rw [if_neg har]

theorem applyRelevanceScores_norms_le (cs : List Cluster) (ctx : WebsiteContext) (ar : Bool) :
    clustersNorms (applyRelevanceScores cs ctx ar).clusters ≤ clustersNorms cs := by
  simp only [applyRelevanceScores]
  by_cases he : cs.isEmpty
  · rw [if_pos he]
    have : cs = [] := List.isEmpty_iff.mp he
    subst this
    exact le_refl _
  · rw [if_neg he]
    dsimp only
    set ctxInfo := buildRelevanceContext ctx with hctx
    set hcb : Bool := decide (0 < ctxInfo.2.card) with hhcb
    suffices hgen : ∀ (l : List Cluster) (acc : List Cluster × ℕ × ℕ),
        clustersNorms (l.foldl (fun acc cluster =>
          match enrichClusterWithRelevance cluster ctxInfo.1 ctxInfo.2 ar hcb with
          | none => (acc.1, acc.2.1 + 1, acc.2.2)
          | some enriched =>
            let removedKw := if ar then acc.2.2 + enriched.removedKeywords else acc.2.2
            let meetsSizeRequirement :=
              if ar then MIN_CLUSTER_SIZE ≤ enriched.keywordCount else 0 < enriched.keywordCount
            if meetsSizeRequirement then (acc.1 ++ [enriched], acc.2.1, removedKw)
            else (acc.1, acc.2.1 + 1, removedKw)) acc).1 ≤
          clustersNorms acc.1 + clustersNorms l by
      have h := hgen cs ([], 0, 0)
      simpa [clustersNorms] using h
    intro l
    induction l with
    | nil => intro acc; simp [clustersNorms]
    | cons c rest ih =>
      intro acc
      rw [List.foldl_cons]
      have htail : ∀ m : Multiset String, m + clustersNorms rest ≤ m + clustersNorms (c :: rest) := by
        intro m
        apply add_le_add_left
        simp only [clustersNorms, List.map_cons, List.sum_cons]
        exact le_add_of_nonneg_left (Multiset.zero_le _)
      rcases henr : enrichClusterWithRelevance c ctxInfo.1 ctxInfo.2 ar hcb with _ | enriched
      · simp only [henr]
        refine le_trans (ih _) ?_
        exact htail _
      · simp only [henr]
        have hen := enrich_norms_le c ctxInfo.1 ctxInfo.2 ar hcb enriched henr
        by_cases hms : (if ar then MIN_CLUSTER_SIZE ≤ enriched.keywordCount
            else 0 < enriched.keywordCount)
        · rw [if_pos hms]
          refine le_trans (ih _) ?_
          dsimp only
          rw [clustersNorms_append]
          have hmid := add_le_add_right (add_le_add_left hen (clustersNorms acc.1))
            (clustersNorms rest)
          refine le_trans hmid (le_of_eq ?_)
          simp only [clustersNorms, List.map_cons, List.sum_cons]
          abel
        · rw [if_neg hms]
          refine le_trans (ih _) ?_
          exact htail _

theorem attachRanks_norms (n : ℕ) (cs : List Cluster) :
    clustersNorms (attachRanks n cs) = clustersNorms cs := by
  induction cs generalizing n with
  | nil => rfl
  | cons c rest ih =>
    simp only [attachRanks, clustersNorms, List.map_cons, List.sum_cons] at ih ⊢
    rw [ih]

theorem perm_clustersNorms {l1 l2 : List Cluster} (h : l1.Perm l2) :
    clustersNorms l1 = clustersNorms l2 := by
  simp only [clustersNorms]
  exact (h.map _).sum_eq

theorem sortAndRankClusters_norms (cs : List Cluster) :
    clustersNorms (sortAndRankClusters cs) = clustersNorms cs := by
  rw [sortAndRankClusters, attachRanks_norms]
  exact perm_clustersNorms (jsSortBy_perm _ cs)

theorem applyClusterNarratives_keywords (cs : List Cluster) (ctx : WebsiteContext) :
    ∀ c2 ∈ applyClusterNarratives cs ctx, ∃ c ∈ cs, c2.keywords = c.keywords := by
  intro c2 hc2
  simp only [applyClusterNarratives, List.mem_map] at hc2
  obtain ⟨c, hc, heq⟩ := hc2
  refine ⟨c, hc, ?_⟩
  subst heq
  split_ifs <;> rfl

theorem applyClusterNarratives_norms (cs : List Cluster) (ctx : WebsiteContext) :
    clustersNorms (applyClusterNarratives cs ctx) = clustersNorms cs := by
  induction cs with
  | nil => rfl
  | cons c rest ih =>
    simp only [applyClusterNarratives, List.map_cons, clustersNorms, List.sum_cons] at ih ⊢
    rw [ih]
    congr 1
    split_ifs <;> rfl

theorem pairwise_of_length_le_one {R : Cluster → Cluster → Prop} {l : List Cluster}
    (h : l.length ≤ 1) : l.Pairwise R := by
  match l with
  | [] => exact List.Pairwise.nil
  | [c] => exact List.pairwise_singleton R c
  | c :: d :: rest => simp at h

theorem applyRelevanceScores_length_le (cs : List Cluster) (ctx : WebsiteContext) (ar : Bool) :
    (applyRelevanceScores cs ctx ar).clusters.length ≤ cs.length := by
  simp only [applyRelevanceScores]
  by_cases he : cs.isEmpty
  · rw [if_pos he]; simp
  · rw [if_neg he]
    set ctxInfo := buildRelevanceContext ctx
    set hcb : Bool := decide (0 < ctxInfo.2.card)
    suffices hgen : ∀ (l : List Cluster) (acc : List Cluster × ℕ × ℕ),
        (l.foldl (fun acc cluster =>
          match enrichClusterWithRelevance cluster ctxInfo.1 ctxInfo.2 ar hcb with
          | none => (acc.1, acc.2.1 + 1, acc.2.2)
          | some enriched =>
            let removedKw := if ar then acc.2.2 + enriched.removedKeywords else acc.2.2
            let meetsSizeRequirement :=
              if ar then MIN_CLUSTER_SIZE ≤ enriched.keywordCount else 0 < enriched.keywordCount
            if meetsSizeRequirement then (acc.1 ++ [enriched], acc.2.1, removedKw)
            else (acc.1, acc.2.1 + 1, removedKw)) acc).1.length ≤ acc.1.length + l.length by
      have h := hgen cs ([], 0, 0)
      simpa using h
    intro l
    induction l with
    | nil => intro acc; simp
    | cons c rest ih =>
      intro acc
      rw [List.foldl_cons]
      rcases henr : enrichClusterWithRelevance c ctxInfo.1 ctxInfo.2 ar hcb with _ | enriched
      · simp only [henr]
        refine le_trans (ih _) ?_
        simp only [List.length_cons]
        omega
      · simp only [henr]
        by_cases hms : (if ar then MIN_CLUSTER_SIZE ≤ enriched.keywordCount
            else 0 < enriched.keywordCount)
        · rw [if_pos hms]
          refine le_trans (ih _) ?_
          simp only [List.length_append, List.length_cons, List.length_nil]
          omega
        · rw [if_neg hms]
          refine le_trans (ih _) ?_
          simp only [List.length_cons]
          omega

/-- C1: for every keyword list, website context and options — and whatever
the clustering algorithms and the AI enhancement return — the cluster set
returned by `clusterKeywords` is duplicate-free: no keyword text, compared
after trimming and case-folding, is a member of more than one returned
cluster. -/
theorem C1_clusterKeywords_unique (algClusters reClusters : List Cluster)
    (aiTransform : List Cluster → List Cluster) (keywordData : List Keyword)
    (websiteContext : WebsiteContext) (opts : ClusterOptions) :
    NoSharedKeyword
      (clusterKeywords algClusters reClusters aiTransform keywordData websiteContext opts) := by
  simp only [clusterKeywords]
  split_ifs <;>
  first
  | exact List.Pairwise.nil
  | exact pairwise_of_length_le_one (by simp)
  | (apply pairwise_of_length_le_one
     have h := applyRelevanceScores_length_le
       [createClusterObject 1 keywordData "single"] websiteContext true
     simpa using h)
  | (apply noShared_of_nodup
     rw [applyClusterNarratives_norms, sortAndRankClusters_norms]
     exact Multiset.nodup_of_le (applyRelevanceScores_norms_le _ _ _)
       (ensureUniqueKeywords_nodup _))

theorem sortKeywordsByVolume_length (l : List Keyword) :
    (sortKeywordsByVolume l).length = l.length := (sortKeywordsByVolume_perm l).length_eq

/-- With no usable context, `enrichClusterWithRelevance` keeps every
keyword (re-sorted by volume). -/
theorem enrich_noContext (c : Cluster) (t : String) (tk : Finset String)
    (h : ¬ c.keywords.isEmpty) :
    ∃ c2, enrichClusterWithRelevance c t tk true false = some c2 ∧
      c2.keywords = sortKeywordsByVolume c.keywords ∧
      c2.keywordCount = c.keywords.length := by
  have hkeep : c.keywords.filter (shouldKeepKw true false t tk) = c.keywords := by
    apply List.filter_eq_self.mpr
    intro kw _
    simp [shouldKeepKw]
  simp only [enrichClusterWithRelevance, if_neg h, hkeep]
  simp only [if_true, Bool.and_self, if_neg h]
  refine ⟨_, rfl, rfl, ?_⟩
  exact sortKeywordsByVolume_length c.keywords

/-- The keyword count of an enriched cluster never exceeds the number of
input keywords. -/
theorem enrich_count_le (c : Cluster) (t : String) (tk : Finset String) (ar hc : Bool)
    (c2 : Cluster) (h : enrichClusterWithRelevance c t tk ar hc = some c2) :
    c2.keywordCount ≤ c.keywords.length := by
  simp only [enrichClusterWithRelevance] at h
  by_cases he : c.keywords.isEmpty
  · rw [if_pos he] at h
    by_cases har : ar && hc
    · rw [if_pos har] at h; cases h
    · rw [if_neg har] at h
      have : c2.keywordCount = 0 := by cases h; rfl
      omega
  · rw [if_neg he] at h
    by_cases hw : (if ar then
        c.keywords.filter (shouldKeepKw ar hc t tk) else c.keywords).isEmpty
    · rw [if_pos hw] at h
      by_cases hhc : hc
      · rw [if_pos hhc] at h; cases h
      · rw [if_neg hhc] at h
        have : c2.keywordCount = 0 := by cases h; rfl
        omega
    · rw [if_neg hw] at h
      have hcnt : c2.keywordCount = (sortKeywordsByVolume (if ar then
          c.keywords.filter (shouldKeepKw ar hc t tk) else c.keywords)).length := by
        cases h; rfl
      rw [hcnt, sortKeywordsByVolume_length]
      by_cases har : ar
      · rw [if_pos har]
        exact (List.filter_sublist _).length_le
      · rw [if_neg har]

/-- `applyRelevanceScores` on a single cluster. -/
theorem applyRelevanceScores_singleton (c : Cluster) (ctx : WebsiteContext) (ar : Bool) :
    (applyRelevanceScores [c] ctx ar).clusters =
      match enrichClusterWithRelevance c (buildRelevanceContext ctx).1
          (buildRelevanceContext ctx).2 ar (decide (0 < (buildRelevanceContext ctx).2.card)) with
      | none => []
      | some e =>
        if (if ar then MIN_CLUSTER_SIZE ≤ e.keywordCount else 0 < e.keywordCount) then [e]
        else [] := by
  simp only [applyRelevanceScores]
  rw [if_neg (by simp : ¬ ([c] : List Cluster).isEmpty = true)]
  dsimp only
  rw [List.foldl_cons, List.foldl_nil]
  rcases henr : enrichClusterWithRelevance c (buildRelevanceContext ctx).1
      (buildRelevanceContext ctx).2 ar (decide (0 < (buildRelevanceContext ctx).2.card)) with _ | e
  · rfl
  · dsimp only
    by_cases hms : (if ar then MIN_CLUSTER_SIZE ≤ e.keywordCount else 0 < e.keywordCount)
    · rw [if_pos hms, if_pos hms]
      rfl
    · rw [if_neg hms, if_neg hms]

/-- The small-input branch of `clusterKeywords`. -/
theorem clusterKeywords_small (algClusters reClusters : List Cluster)
    (aiTransform : List Cluster → List Cluster) (keywordData : List Keyword)
    (ctx : WebsiteContext) (opts : ClusterOptions)
    (h0 : ¬ keywordData.isEmpty = true) (h1 : keywordData.length < opts.minClusterSize) :
    clusterKeywords algClusters reClusters aiTransform keywordData ctx opts =
      (if 0 < (applyRelevanceScores [createClusterObject 1 keywordData "single"]
          ctx true).clusters.length
       then (applyRelevanceScores [createClusterObject 1 keywordData "single"] ctx true).clusters
       else [createClusterObject 1 keywordData "single"]) := by
  simp only [clusterKeywords]
  rw [if_neg h0, if_pos h1]

/-- C5 (amended): for every non-empty keyword list shorter than
`minClusterSize`, `clusterKeywords` returns exactly one cluster. That
cluster contains every input keyword whenever the website context yields
no relevance tokens, or the list is shorter than the global
MIN_CLUSTER_SIZE (3) — with a non-empty context and
3 ≤ length < minClusterSize the relevance filter may drop keywords from
the single returned cluster. -/
theorem C5_small_input_single_cluster (algClusters reClusters : List Cluster)
    (aiTransform : List Cluster → List Cluster) (keywordData : List Keyword)
    (ctx : WebsiteContext) (opts : ClusterOptions)
    (h0 : keywordData ≠ [])
    (h1 : keywordData.length < opts.minClusterSize) :
    (clusterKeywords algClusters reClusters aiTransform keywordData ctx opts).length = 1 ∧
    (((buildRelevanceContext ctx).2 = ∅ ∨ keywordData.length < MIN_CLUSTER_SIZE) →
      ∀ kw ∈ keywordData,
        ∀ c ∈ clusterKeywords algClusters reClusters aiTransform keywordData ctx opts,
          kw ∈ c.keywords) := by
  have h0b : ¬ keywordData.isEmpty = true := by simpa using h0
  have hsmall := clusterKeywords_small algClusters reClusters aiTransform keywordData ctx opts h0b h1
  set single := createClusterObject 1 keywordData "single" with hsingledef
  have hsk : single.keywords = sortKeywordsByVolume keywordData :=
    createClusterObject_keywords 1 keywordData "single"
  have hskne : ¬ single.keywords.isEmpty = true := by
    rw [hsk]
    intro hc
    apply h0
    have := List.isEmpty_iff.mp hc
    have hlen := congrArg List.length this
    rw [sortKeywordsByVolume_length] at hlen
    exact List.length_eq_zero.mp hlen
  have hmem : ∀ kw, kw ∈ keywordData ↔ kw ∈ single.keywords := by
    intro kw
    rw [hsk]
    exact ((sortKeywordsByVolume_perm keywordData).mem_iff).symm
  have hrr := applyRelevanceScores_singleton single ctx true
  -- the output is either [single] or a single enriched cluster
  rcases henr : enrichClusterWithRelevance single (buildRelevanceContext ctx).1
      (buildRelevanceContext ctx).2 true (decide (0 < (buildRelevanceContext ctx).2.card))
    with _ | e
  · rw [henr] at hrr
    rw [hsmall, hrr]
    refine ⟨by simp, ?_⟩
    intro _ kw hkw c hc
    simp only [if_neg (by simp : ¬ (0:ℕ) < ([] : List Cluster).length), List.mem_singleton] at hc
    subst hc
    exact (hmem kw).mp hkw
  · rw [henr] at hrr
    dsimp only at hrr
    by_cases hms : MIN_CLUSTER_SIZE ≤ e.keywordCount
    · rw [if_pos (by simpa using hms)] at hrr
      rw [hsmall, hrr]
      refine ⟨by simp, ?_⟩
      rintro (hctx | hlen3) kw hkw c hc
      · -- no context tokens: the enriched cluster kept everything
        have hcb : (decide (0 < (buildRelevanceContext ctx).2.card)) = false := by
          rw [hctx]; simp
        rw [hcb] at henr
        obtain ⟨c2, hc2, hc2k, _⟩ := enrich_noContext single
          (buildRelevanceContext ctx).1 (buildRelevanceContext ctx).2 hskne
        rw [henr] at hc2
        obtain rfl : e = c2 := by cases hc2; rfl
        simp only [if_pos (by simp : (0:ℕ) < ([e] : List Cluster).length),
          List.mem_singleton] at hc
        subst hc
        rw [hc2k, hsk]
        rw [(sortKeywordsByVolume_perm _).mem_iff, (sortKeywordsByVolume_perm _).mem_iff]
        exact hkw
      · -- fewer than MIN_CLUSTER_SIZE keywords: the size gate cannot pass
        exfalso
        have hcle := enrich_count_le single (buildRelevanceContext ctx).1
          (buildRelevanceContext ctx).2 true _ e henr
        rw [hsk, sortKeywordsByVolume_length] at hcle
        have : MIN_CLUSTER_SIZE ≤ keywordData.length := le_trans hms hcle
        omega
    · rw [if_neg (by simpa using hms)] at hrr
      rw [hsmall, hrr]
      refine ⟨by simp, ?_⟩
      intro _ kw hkw c hc
      simp only [if_neg (by simp : ¬ (0:ℕ) < ([] : List Cluster).length),
        List.mem_singleton] at hc
      subst hc
      exact (hmem kw).mp hkw

set_option maxRecDepth 100000 in
unseal Rat.add Rat.mul Rat.inv Rat.sub in
/-- C3 (counterexample): the claim "assign the shared keyword to the cluster
whose pillar topic it is most similar to, ties to the earlier cluster" fails:
the second cluster's pillar is strictly more similar (3/8 > 5/14), yet
`ensureUniqueKeywords` keeps the keyword in the first cluster, because the
code only reassigns when the later affinity exceeds the owner's by more
than 0.02 (and 3/8 ≤ 5/14 + 1/50). -/
theorem C3_counterexample :
    calculateSemanticSimilarity kwSharedC3.keyword clusterC3a.pillarTopic
      < calculateSemanticSimilarity kwSharedC3.keyword clusterC3b.pillarTopic ∧
    (ensureUniqueKeywords [clusterC3a, clusterC3b]).map
      (fun c => (c.pillarTopic, c.keywords.map (fun k => k.keyword))) =
      [("p a b c d e q r s", ["a b c d e f g h i j", "f1a", "f2a"])] := by
  decide

set_option maxRecDepth 100000 in
unseal Rat.add Rat.mul Rat.inv Rat.sub in
/-- C5 (counterexample): with 4 keywords, `minClusterSize = 6` and a
non-empty site context, `clusterKeywords` returns one cluster that is
missing the irrelevant keyword "car insurance" — the claim "that cluster
contains all of the input keywords" is false. -/
theorem C5_counterexample :
    (0 < kwsC5.length ∧ kwsC5.length < optsC5.minClusterSize) ∧
    (clusterKeywords [] [] (fun cs => cs) kwsC5 ctxC5 optsC5).map
      (fun c => c.keywords.map (fun k => k.keyword)) =
      [["zug dental", "dental care", "care zug"]] ∧
    ¬ (∀ c ∈ clusterKeywords [] [] (fun cs => cs) kwsC5 ctxC5 optsC5,
        kwCarC5 ∈ c.keywords) := by
  decide

/-- C5 witness: the amended theorem applied to two keywords (below the
global MIN_CLUSTER_SIZE) with an empty context. -/
theorem C5_witness :
    kwsC5w ≠ [] ∧ kwsC5w.length < ClusterOptions.minClusterSize {} ∧
    ((clusterKeywords [] [] (fun cs => cs) kwsC5w {} {}).length = 1 ∧
     (((buildRelevanceContext {}).2 = ∅ ∨ kwsC5w.length < MIN_CLUSTER_SIZE) →
       ∀ kw ∈ kwsC5w, ∀ c ∈ clusterKeywords [] [] (fun cs => cs) kwsC5w {} {},
         kw ∈ c.keywords)) :=
  ⟨by decide, by decide,
    C5_small_input_single_cluster [] [] (fun cs => cs) kwsC5w {} {} (by decide) (by decide)⟩

/-- C2 (counterexample): the claim "progress is monotonic non-decreasing
over the job's lifetime, including the failure path" is false: a job that
fails after reaching progress 10 is reset to progress 0, so a reader
observes 10 and then 0. -/
theorem C2_counterexample :
    (processTrace 2 true).map (fun j => j.progress) = [0, 5, 10, 0] ∧
    ¬ List.Chain' (fun a b => a.progress ≤ b.progress) (processTrace 2 true) := by
  decide

/-- C2 (amended): progress is monotonic non-decreasing along the success
path; on failure the catch block sets `status = 'failed'` and resets
progress to 0, so any observed decrease happens at a step that moves the
job to the failed state with progress 0. -/
theorem C2_progress_monotone :
    (∀ k : ℕ, List.Chain' (fun a b => a.progress ≤ b.progress) (processTrace k false)) ∧
    (∀ (k : ℕ) (fails : Bool),
      List.Chain' (fun a b => a.progress ≤ b.progress ∨ (b.status = "failed" ∧ b.progress = 0))
        (processTrace k fails)) := by
  have hlen : successUpdates.length = 7 := by decide
  have htake : ∀ k : ℕ, 7 ≤ k → successUpdates.take k = successUpdates.take 7 := by
    intro k hk
    rw [List.take_of_length_le (by omega), List.take_of_length_le (by omega)]
  constructor
  · intro k
    rcases le_or_lt 7 k with hk | hk
    · rw [show processTrace k false = processTrace 7 false by
        simp only [processTrace, htake k hk]]
      decide
    · interval_cases k <;> decide
  · intro k fails
    rcases le_or_lt 7 k with hk | hk
    · rw [show processTrace k fails = processTrace 7 fails by
        simp only [processTrace, htake k hk]]
      rcases fails <;> decide
    · interval_cases k <;> rcases fails <;> decide

theorem filterImp_length {α : Type} (p q : α → Bool) (h : ∀ x, p x = true → q x = true) :
    ∀ l : List α, (l.filter p).length ≤ (l.filter q).length := by
  intro l
  induction l with
  | nil => simp
  | cons a l ih =>
    by_cases hp : p a = true
    · rw [List.filter_cons_of_pos hp, List.filter_cons_of_pos (h a hp)]
      simpa using ih
    · rw [List.filter_cons_of_neg (by simpa using hp)]
      by_cases hq : q a = true
      · rw [List.filter_cons_of_pos hq]
        exact le_trans ih (by simp)
      · rw [List.filter_cons_of_neg (by simpa using hq)]
        exact ih

theorem limiter_window_aux :
    ∀ (ts admitted : List ℤ) (c τ : ℤ),
      ts.Chain' (· ≤ ·) → (∀ t ∈ ts, τ ≤ t) → c ≤ τ - RATE_WINDOW_MS →
      (∀ t ∈ admitted, t ≤ τ) →
      (∀ w : ℤ, (admitted.filter (fun t => decide (w < t) && decide (t ≤ w + RATE_WINDOW_MS))).length ≤ REQUEST_LIMIT) →
      ∀ w : ℤ,
        ((admitted ++ admittedTimes (admitted.filter (fun t => decide (c < t))) ts).filter
          (fun t => decide (w < t) && decide (t ≤ w + RATE_WINDOW_MS))).length ≤ REQUEST_LIMIT := by
  intro ts
  induction ts with
  | nil =>
    intro admitted c τ _ _ _ _ hbound w
    simpa [admittedTimes] using hbound w
  | cons t ts ih =>
    intro admitted c τ hchain hτ hc hle hbound w
    have hτt : τ ≤ t := hτ t (by simp)
    have hwin : (admitted.filter (fun u => decide (c < u))).filter (fun u => decide (t - RATE_WINDOW_MS < u))
        = admitted.filter (fun u => decide (t - RATE_WINDOW_MS < u)) := by
      rw [List.filter_filter]
      apply List.filter_congr
      intro u hu
      have h1 : u ≤ τ := hle u hu
      by_cases h2 : t - RATE_WINDOW_MS < u
      · have h3 : c < u := by omega
        simp [h2, h3]
      · simp [h2]
    have hchain2 : ts.Chain' (· ≤ ·) := hchain.tail
    have hτ2 : ∀ u ∈ ts, t ≤ u := by
      have hp : (t :: ts).Pairwise (· ≤ ·) := List.chain'_iff_pairwise.mp hchain
      intro u hu
      exact (List.pairwise_cons.mp hp).1 u hu
    simp only [admittedTimes, rateStep, RATE_WINDOW_MS] at *
    rw [hwin]
    by_cases hlim : REQUEST_LIMIT ≤ (admitted.filter (fun u => decide (t - 3600000 < u))).length
    · rw [if_pos hlim]
      simp only [if_neg (Bool.false_ne_true), List.nil_append]
      have := ih admitted c t hchain2 hτ2 (by omega) (fun u hu => le_trans (hle u hu) hτt) hbound w
      simpa [hwin] using this
    · rw [if_neg hlim]
      simp only [if_pos rfl]
      have hnext : admitted.filter (fun u => decide (t - 3600000 < u)) ++ [t]
          = (admitted ++ [t]).filter (fun u => decide (t - 3600000 < u)) := by
        rw [List.filter_append]
        simp
      rw [hnext]
      have hboundA : ∀ w : ℤ, (((admitted ++ [t]).filter
          (fun u => decide (w < u) && decide (u ≤ w + 3600000))).length ≤ REQUEST_LIMIT) := by
        intro w
        rw [List.filter_append]
        by_cases hmem : w < t ∧ t ≤ w + 3600000
        · have hsub : (admitted.filter (fun u => decide (w < u) && decide (u ≤ w + 3600000))).length
              ≤ (admitted.filter (fun u => decide (t - 3600000 < u))).length := by
            apply filterImp_length
            intro u hu
            simp only [Bool.and_eq_true, decide_eq_true_eq] at hu ⊢
            omega
          have h9 : (admitted.filter (fun u => decide (t - 3600000 < u))).length ≤ 9 := by
            simp only [REQUEST_LIMIT] at hlim
            omega
          have : ([t].filter (fun u => decide (w < u) && decide (u ≤ w + 3600000))).length ≤ 1 := by
            exact le_trans (List.length_filter_le _ _) (by simp)
          rw [List.length_append]
          simp only [REQUEST_LIMIT]
          omega
        · have hnil : [t].filter (fun u => decide (w < u) && decide (u ≤ w + 3600000)) = [] := by
            rw [List.filter_eq_nil_iff]
            intro u hu
            simp only [List.mem_singleton] at hu
            subst hu
            simp only [Bool.and_eq_true, decide_eq_true_eq, not_and]
            omega
          rw [hnil, List.append_nil]
          exact hbound w
      have hleA : ∀ u ∈ admitted ++ [t], u ≤ t := by
        intro u hu
        rcases List.mem_append.mp hu with h | h
        · exact le_trans (hle u h) hτt
        · simp at h
          omega
      have := ih (admitted ++ [t]) (t - 3600000) t hchain2 hτ2 (by omega) hleA hboundA w
      simpa using this

theorem run_admits :
    ∀ (ts stored : List ℤ),
      stored.length + ts.length ≤ REQUEST_LIMIT →
      (∀ x ∈ stored ++ ts, ∀ y ∈ stored ++ ts, y - RATE_WINDOW_MS < x) →
      runLimiter stored ts = stored ++ ts ∧ admittedTimes stored ts = ts := by
  intro ts
  induction ts with
  | nil =>
    intro stored _ _
    exact ⟨by simp [runLimiter], by simp [admittedTimes]⟩
  | cons t ts ih =>
    intro stored hlen hspan
    have hfil : stored.filter (fun u => decide (t - RATE_WINDOW_MS < u)) = stored := by
      apply List.filter_eq_self.mpr
      intro u hu
      simp only [decide_eq_true_eq]
      exact hspan u (List.mem_append.mpr (Or.inl hu)) t (by simp)
    have hnotlim : ¬ REQUEST_LIMIT ≤ (stored.filter (fun u => decide (t - RATE_WINDOW_MS < u))).length := by
      rw [hfil]
      simp only [List.length_cons, REQUEST_LIMIT] at hlen ⊢
      omega
    have hstep : rateStep stored t = (true, stored ++ [t], none) := by
      simp only [rateStep]
      rw [if_neg hnotlim, hfil]
    have hspan2 : ∀ x ∈ (stored ++ [t]) ++ ts, ∀ y ∈ (stored ++ [t]) ++ ts, y - RATE_WINDOW_MS < x := by
      intro x hx y hy
      apply hspan <;> simp only [List.append_assoc, List.mem_append, List.mem_cons] at * <;> tauto
    have := ih (stored ++ [t]) (by simp only [List.length_append, List.length_cons, List.length_nil] at *; omega) hspan2
    refine ⟨?_, ?_⟩
    · simp only [runLimiter, hstep]
      rw [this.1]
      simp
    · simp only [admittedTimes, hstep]
      rw [this.2]
      simp

/-- C7: the rate limiter admits at most 10 requests per IP in any sliding
one-hour window, and after 10 admitted requests inside one hour the next
request is rejected (HTTP 429 path) with
retryAfter = ceil((oldest admitted + 3600000 - now) / 1000) > 0. -/
theorem C7_rate_limit :
    (∀ times : List ℤ, times.Chain' (· ≤ ·) →
      ∀ w : ℤ, ((admittedTimes [] times).filter
        (fun t => decide (w < t) && decide (t ≤ w + RATE_WINDOW_MS))).length ≤ REQUEST_LIMIT) ∧
    (∀ (ts : List ℤ) (t0 tNext : ℤ),
      (t0 :: ts).length = 10 →
      ((t0 :: ts) ++ [tNext]).Chain' (· ≤ ·) →
      tNext < t0 + RATE_WINDOW_MS →
      admittedTimes [] (t0 :: ts) = t0 :: ts ∧
      (rateStep (runLimiter [] (t0 :: ts)) tNext).1 = false ∧
      (rateStep (runLimiter [] (t0 :: ts)) tNext).2.2 =
        some ⌈(((t0 + RATE_WINDOW_MS - tNext : ℤ) : ℚ) / 1000)⌉ ∧
      (∀ r : ℤ, (rateStep (runLimiter [] (t0 :: ts)) tNext).2.2 = some r → 0 < r)) := by
  constructor
  · intro times hchain w
    match times with
    | [] => simp [admittedTimes, REQUEST_LIMIT]
    | t :: ts =>
      have hτ : ∀ u ∈ t :: ts, t ≤ u := by
        have hp := List.chain'_iff_pairwise.mp hchain
        intro u hu
        rcases List.mem_cons.mp hu with h | h
        · omega
        · exact (List.pairwise_cons.mp hp).1 u h
      have := limiter_window_aux (t :: ts) [] (t - RATE_WINDOW_MS) t hchain hτ (by omega)
        (by simp) (by simp [REQUEST_LIMIT]) w
      simpa using this
  · intro ts t0 tNext hlen hchain hwin
    have hp := List.chain'_iff_pairwise.mp hchain
    have hpa := List.pairwise_append.mp hp
    have hlast : ∀ y ∈ t0 :: ts, y ≤ tNext := by
      intro y hy
      exact hpa.2.2 y hy tNext (by simp)
    have hfirst : ∀ x ∈ t0 :: ts, t0 ≤ x := by
      intro x hx
      rcases List.mem_cons.mp hx with h | h
      · omega
      · exact (List.pairwise_cons.mp hpa.1).1 x h
    have hspan : ∀ x ∈ ([] : List ℤ) ++ (t0 :: ts), ∀ y ∈ ([] : List ℤ) ++ (t0 :: ts),
        y - RATE_WINDOW_MS < x := by
      intro x hx y hy
      simp only [List.nil_append] at hx hy
      have h1 := hfirst x hx
      have h2 := hlast y hy
      omega
    have hrun := run_admits (t0 :: ts) [] (by simp only [List.length_nil, hlen, REQUEST_LIMIT]; omega) hspan
    have hstored : runLimiter [] (t0 :: ts) = t0 :: ts := by
      rw [hrun.1]; simp
    have hfil : (t0 :: ts).filter (fun u => decide (tNext - RATE_WINDOW_MS < u)) = t0 :: ts := by
      apply List.filter_eq_self.mpr
      intro u hu
      have := hfirst u hu
      simp only [decide_eq_true_eq]
      omega
    have hstep : rateStep (t0 :: ts) tNext =
        (false, t0 :: ts, some ⌈(((t0 + RATE_WINDOW_MS - tNext : ℤ) : ℚ) / 1000)⌉) := by
      simp only [rateStep, hfil]
      rw [if_pos (by rw [hlen]; simp [REQUEST_LIMIT])]
      simp
    refine ⟨hrun.2, ?_, ?_, ?_⟩
    · rw [hstored, hstep]
    · rw [hstored, hstep]
    · intro r hr
      rw [hstored, hstep] at hr
      simp only [Option.some.injEq] at hr
      subst hr
      apply Int.ceil_pos.mpr
      apply div_pos _ (by norm_num)
      have : (0 : ℤ) < t0 + RATE_WINDOW_MS - tNext := by omega
      exact_mod_cast this

/-- C7 witness: ten requests at times 0..9 are all admitted; the request at
time 10 is rejected and its retryAfter is positive. -/
theorem C7_witness :
    admittedTimes [] [0, 1, 2, 3, 4, 5, 6, 7, 8, 9] = [0, 1, 2, 3, 4, 5, 6, 7, 8, 9] ∧
    (rateStep (runLimiter [] [0, 1, 2, 3, 4, 5, 6, 7, 8, 9]) 10).1 = false ∧
    0 < ⌈(((0 + RATE_WINDOW_MS - 10 : ℤ) : ℚ) / 1000)⌉ := by
  have h := C7_rate_limit.2 [1, 2, 3, 4, 5, 6, 7, 8, 9] 0 10 (by decide) (by decide) (by decide)
  exact ⟨h.1, h.2.1, h.2.2.2 _ h.2.2.1⟩

/-- C10: a rejected request stores nothing (any number of rejected retries
leaves the IP's stored window unchanged), and any request whose one-hour
window count is below the limit is admitted. -/
theorem C10_rejected_consumes_no_quota :
    (∀ (stored : List ℤ) (now : ℤ), (rateStep stored now).1 = false →
      (rateStep stored now).2.1 = stored) ∧
    (∀ (stored retries : List ℤ),
      (∀ r ∈ retries, REQUEST_LIMIT ≤ (stored.filter (fun u => decide (r - RATE_WINDOW_MS < u))).length) →
      runLimiter stored retries = stored) ∧
    (∀ (stored : List ℤ) (t : ℤ),
      (stored.filter (fun u => decide (t - RATE_WINDOW_MS < u))).length < REQUEST_LIMIT →
      (rateStep stored t).1 = true) := by
  refine ⟨?_, ?_, ?_⟩
  · intro stored now h
    simp only [rateStep] at h ⊢
    by_cases hc : REQUEST_LIMIT ≤ (stored.filter (fun u => decide (now - RATE_WINDOW_MS < u))).length
    · rw [if_pos hc]
    · rw [if_neg hc] at h
      simp at h
  · intro stored retries
    induction retries with
    | nil => intro _; simp [runLimiter]
    | cons r rs ih =>
      intro h
      have hr := h r (by simp)
      have hstep : (rateStep stored r).2.1 = stored := by
        simp only [rateStep]
        rw [if_pos hr]
      simp only [runLimiter, hstep]
      exact ih (fun u hu => h u (by simp [hu]))
  · intro stored t h
    simp only [rateStep]
    rw [if_neg (by omega)]

/-- C10 witness: with ten stored timestamps 0..9, rejected retries at times
100 and 200 leave the stored list unchanged, and once the window has aged
out (time 3600001) a request is admitted. -/
theorem C10_witness :
    runLimiter [0, 1, 2, 3, 4, 5, 6, 7, 8, 9] [100, 200] = [0, 1, 2, 3, 4, 5, 6, 7, 8, 9] ∧
    (rateStep [0, 1, 2, 3, 4, 5, 6, 7, 8, 9] (RATE_WINDOW_MS + 1)).1 = true := by
  constructor
  · exact C10_rejected_consumes_no_quota.2.1 _ [100, 200] (by decide)
  · exact C10_rejected_consumes_no_quota.2.2 _ (RATE_WINDOW_MS + 1) (by decide)

theorem crawlLoop_length_le (mp : ℤ) :
    ∀ (frontier visited : List String), (visited.length : ℤ) ≤ max mp 0 →
      ((crawlLoop mp frontier visited).length : ℤ) ≤ max mp 0 := by
  intro frontier
  induction frontier with
  | nil => intro visited h; simpa [crawlLoop] using h
  | cons u rest ih =>
    intro visited h
    simp only [crawlLoop]
    by_cases hb : (visited.length : ℤ) < mp
    · rw [if_pos hb]
      by_cases hm : u ∈ visited
      · rw [if_pos hm]
        exact ih visited h
      · rw [if_neg hm]
        apply ih
        simp only [List.length_append, List.length_cons, List.length_nil]
        push_cast
        omega
    · rw [if_neg hb]
      exact h

/-- C9 (counterexample): the claim says the maxPages actually used by the
pipeline is clamped to [1,100]. The backend computes
`maxPages: options.maxPages || 20` with no clamp: a request with
maxPages = 500 drives the scraper with budget 500 > 100, and
maxPages = -5 drives it with a budget below 1. -/
theorem C9_counterexample :
    effectiveMaxPages (some 500) = 500 ∧ ¬ (500 : ℤ) ≤ 100 ∧
    effectiveMaxPages (some (-5)) = -5 ∧ ¬ (1 : ℤ) ≤ -5 := by
  decide

/-- C9 (amended): the backend applies no [1,100] clamp: any nonzero
requested value is passed to the scraper verbatim, while an absent or zero
value defaults to 20; the scraper itself never visits more than
max(maxPages, 0) pages. -/
theorem C9_maxPages (v : ℤ) (hv : v ≠ 0) :
    effectiveMaxPages (some v) = v ∧
    effectiveMaxPages none = 20 ∧
    effectiveMaxPages (some 0) = 20 ∧
    (∀ (mp : ℤ) (fl ok : Bool) (seed : String) (links : List String),
      ((scrapeVisited mp fl ok seed links).length : ℤ) ≤ max mp 0) := by
  refine ⟨by simp [effectiveMaxPages, hv], rfl, rfl, ?_⟩
  intro mp fl ok seed links
  simp only [scrapeVisited]
  by_cases hmp : 0 < mp
  · rw [if_pos hmp]
    apply crawlLoop_length_le
    simp only [List.length_cons, List.length_nil]
    omega
  · rw [if_neg hmp]
    simp

/-- C9 witness: a requested 500 reaches the scraper as 500 and the crawl
budget bound holds on a concrete run. -/
theorem C9_witness :
    effectiveMaxPages (some 500) = 500 ∧
    ((scrapeVisited 2 true true "a" ["b", "c", "d"]).length : ℤ) ≤ max 2 0 := by
  have h := C9_maxPages 500 (by decide)
  exact ⟨h.1, h.2.2.2 2 true true "a" ["b", "c", "d"]⟩

/-- C8: the CSV export is one header row whose columns are exactly the
nine listed labels, followed by exactly one data row per keyword summed
over all clusters; every data row has nine fields and its Cluster Value
Score field is the cluster's score formatted with exactly two decimal
places. -/
theorem C8_csv_export (d : ExportData) :
    toCSV d = jsJoin "\n" ((toCSVRows d).map (fun row => jsJoin "," (row.map csvQuote))) ∧
    (toCSVRows d).length = 1 + (d.clusters.map (fun c => c.keywords.length)).sum ∧
    (toCSVRows d).head? = some csvHeader ∧
    csvHeader = ["Cluster ID", "Pillar Topic", "Keyword", "Search Volume", "Competition",
      "CPC Low", "CPC High", "Cluster Value Score", "Cluster Total Volume"] ∧
    (∀ row ∈ (toCSVRows d).tail, row.length = 9 ∧
      ∃ c ∈ d.clusters, ∃ k ∈ c.keywords, row = keywordRow c k ∧
        row.getD 7 "" = toFixed2 c.clusterValueScore) ∧
    (∀ q : ℚ, ∃ pre post : String, toFixed2 q = pre ++ "." ++ post ∧ post.length = 2) := by
  refine ⟨rfl, ?_, rfl, rfl, ?_, ?_⟩
  · simp only [toCSVRows, List.length_cons, List.length_flatMap, List.length_map,
      Function.comp_def]
    omega
  · intro row hrow
    simp only [toCSVRows, List.tail_cons, List.mem_flatMap, List.mem_map] at hrow
    obtain ⟨c, hc, k, hk, hrk⟩ := hrow
    subst hrk
    refine ⟨rfl, c, hc, k, hk, rfl, rfl⟩
  · intro q
    refine ⟨(if round (q * 100) < 0 then "-" else "") ++ toString ((round (q * 100)).natAbs / 100),
      twoFrac ((round (q * 100)).natAbs % 100), ?_, rfl⟩
    simp only [toFixed2, String.append_assoc]

/-- C8 witness: a concrete export with two clusters holding three keywords
produces one header row plus three data rows of nine fields each. -/
theorem C8_witness :
    (toCSVRows (ExportData.mk
      [CSVCluster.mk 1 "p1" [Keyword.mk "a" 10 "low" 1 2, Keyword.mk "b" 5 "low" 1 2] 0 15,
       CSVCluster.mk 2 "p2" [Keyword.mk "c" 3 "high" 1 2] 0 3])).length =
      1 + (([CSVCluster.mk 1 "p1" [Keyword.mk "a" 10 "low" 1 2, Keyword.mk "b" 5 "low" 1 2] 0 15,
       CSVCluster.mk 2 "p2" [Keyword.mk "c" 3 "high" 1 2] 0 3] : List CSVCluster).map
        (fun c => c.keywords.length)).sum ∧
    (keywordRow (CSVCluster.mk 1 "p1" [Keyword.mk "a" 10 "low" 1 2, Keyword.mk "b" 5 "low" 1 2] 0 15)
      (Keyword.mk "a" 10 "low" 1 2)).length = 9 := by
  have h := C8_csv_export (ExportData.mk
      [CSVCluster.mk 1 "p1" [Keyword.mk "a" 10 "low" 1 2, Keyword.mk "b" 5 "low" 1 2] 0 15,
       CSVCluster.mk 2 "p2" [Keyword.mk "c" 3 "high" 1 2] 0 3])
  refine ⟨h.2.1, ?_⟩
  have hmem := h.2.2.2.2.1 (keywordRow
      (CSVCluster.mk 1 "p1" [Keyword.mk "a" 10 "low" 1 2, Keyword.mk "b" 5 "low" 1 2] 0 15)
      (Keyword.mk "a" 10 "low" 1 2))
    (by simp [toCSVRows, keywordRow])
  exact hmem.1

theorem round_clamp_bounds (x : ℝ) :
    0 ≤ round (min 100 (max 0 x)) ∧ round (min 100 (max 0 x)) ≤ 100 := by
  constructor
  · rw [round_eq]
    have h1 : (0:ℝ) ≤ min 100 (max 0 x) := le_min (by norm_num) (le_max_left 0 x)
    have h2 := Int.le_floor.mpr (show ((0:ℤ):ℝ) ≤ min 100 (max 0 x) + 1/2 by push_cast; linarith)
    omega
  · rw [round_eq]
    have h1 : min 100 (max 0 x) ≤ (100:ℝ) := min_le_left _ _
    have h2 := Int.floor_lt.mpr (show min 100 (max 0 x) + 1/2 < ((101:ℤ):ℝ) by push_cast; linarith)
    omega

/-- C4 (counterexample): the claim's formula uses the raw
relevanceScore*25, but the code clamps relevanceScore to [0,1] first: on a
single zero-volume low-competition keyword with relevanceScore = 5 the
code yields round(45 + 4 ln 2) ≤ 48 while the claim's formula yields 100. -/
theorem C4_counterexample :
    calculateClusterValue kwsC4 5 ≠ clusterValueClaimFormula kwsC4 5 := by
  have hL1 : Real.log 2 < 0.6931471808 := Real.log_two_lt_d9
  have hL0 : 0 < Real.log 2 := Real.log_pos (by norm_num)
  have hcode : calculateClusterValue kwsC4 5 ≤ 48 := by
    simp only [calculateClusterValue, kwsC4, kwC4, calculateTotalVolume, competitionValue,
      List.map_cons, List.map_nil, List.sum_cons, List.sum_nil, List.length_cons,
      List.length_nil, List.isEmpty_cons, Bool.false_eq_true, if_false]
    norm_num [Real.logb_one, Real.log_one]
    rw [min_eq_right (by nlinarith : Real.log 2 * 4 ≤ (10:ℝ)),
      max_eq_right (by nlinarith : (0:ℝ) ≤ 20 + Real.log 2 * 4 + 25),
      min_eq_right (by nlinarith : (20:ℝ) + Real.log 2 * 4 + 25 ≤ 100), round_eq]
    have h2 := Int.floor_lt.mpr (show (20:ℝ) + Real.log 2 * 4 + 25 + 1/2 < ((49:ℤ):ℝ) by
      push_cast; nlinarith)
    omega
  have hclaim : clusterValueClaimFormula kwsC4 5 = 100 := by
    simp only [clusterValueClaimFormula, kwsC4, kwC4, calculateTotalVolume, competitionValue,
      List.map_cons, List.map_nil, List.sum_cons, List.sum_nil, List.length_cons,
      List.length_nil, List.isEmpty_cons, Bool.false_eq_true, if_false]
    norm_num [Real.logb_one, Real.log_one]
    rw [min_eq_right (by nlinarith : Real.log 2 * 4 ≤ (10:ℝ)),
      max_eq_right (by nlinarith : (0:ℝ) ≤ 20 + Real.log 2 * 4 + 125),
      min_eq_left (by nlinarith : (100:ℝ) ≤ 20 + Real.log 2 * 4 + 125), round_eq]
    rw [Int.floor_eq_iff]
    constructor
    · push_cast; norm_num
    · push_cast; norm_num
  omega

/-- C4 (amended): for a non-empty keyword list and a relevanceScore already
in [0,1] (which is how `clusterKeywords` calls it), `calculateClusterValue`
agrees with the claim's formula, and its result always lies in [0,100]; it
is a pure function of (keywords, relevanceScore) by construction. -/
theorem C4_cluster_value (kws : List Keyword) (r : ℝ) (h0 : kws ≠ []) (h1 : 0 ≤ r) (h2 : r ≤ 1) :
    calculateClusterValue kws r = clusterValueClaimFormula kws r ∧
    0 ≤ calculateClusterValue kws r ∧ calculateClusterValue kws r ≤ 100 := by
  have hne : kws.isEmpty = false := by
    cases kws with
    | nil => exact absurd rfl h0
    | cons a l => rfl
  refine ⟨?_, ?_, ?_⟩
  · simp only [calculateClusterValue, clusterValueClaimFormula, hne, Bool.false_eq_true, if_false]
    rw [min_eq_right h2, max_eq_right h1]
  · simp only [calculateClusterValue, hne, Bool.false_eq_true, if_false]
    exact (round_clamp_bounds _).1
  · simp only [calculateClusterValue, hne, Bool.false_eq_true, if_false]
    exact (round_clamp_bounds _).2

/-- C4 witness: the amended statement instantiated at the concrete
single-keyword list and relevanceScore 1. -/
theorem C4_witness :
    calculateClusterValue kwsC4 1 = clusterValueClaimFormula kwsC4 1 ∧
    0 ≤ calculateClusterValue kwsC4 1 ∧ calculateClusterValue kwsC4 1 ≤ 100 :=
  C4_cluster_value kwsC4 1 (by decide) zero_le_one le_rfl

theorem assignStep_owners (pillar : String) (i : ℕ) (st : AssignState) (kw : Keyword) (t : String) :
    (assignStep pillar i st kw).owners t = ownerStep t (st.owners t) (i, pillar, kw) := by
  simp only [assignStep, ownerStep]
  by_cases h0 : normKey kw.keyword = ""
  · rw [if_pos h0, if_neg (by simp [h0])]
  · rw [if_neg h0]
    by_cases ht : normKey kw.keyword = t
    · subst ht
      rw [if_pos ⟨rfl, h0⟩]
      cases hown : st.owners (normKey kw.keyword) with
      | none => simp
      | some pr =>
        obtain ⟨j, a⟩ := pr
        dsimp only
        split_ifs with hsteal
        · dsimp only
          rw [if_pos rfl]
        · exact hown
    · rw [if_neg (by tauto)]
      cases hown : st.owners (normKey kw.keyword) with
      | none =>
        dsimp only
        rw [if_neg (fun h => ht h.symm)]
      | some pr =>
        obtain ⟨j, a⟩ := pr
        dsimp only
        split_ifs with hsteal
        · dsimp only
          rw [if_neg (fun h => ht h.symm)]
        · rfl

theorem foldl_assignStep_owners (pillar : String) (i : ℕ) (kws : List Keyword) :
    ∀ (st : AssignState) (t : String),
      ((kws.foldl (assignStep pillar i) st).owners t)
        = (kws.map (fun kw => (i, pillar, kw))).foldl (ownerStep t) (st.owners t) := by
  induction kws with
  | nil => intro st t; rfl
  | cons kw kws ih =>
    intro st t
    simp only [List.foldl_cons, List.map_cons]
    rw [ih, assignStep_owners]

theorem foldl_assignClusterFold_owners :
    ∀ (ps : List (ℕ × Cluster)) (st : AssignState) (t : String),
      ((ps.foldl assignClusterFold st).owners t)
        = (ps.flatMap (fun p => p.2.keywords.map (fun kw => (p.1, p.2.pillarTopic, kw)))).foldl
            (ownerStep t) (st.owners t) := by
  intro ps
  induction ps with
  | nil => intro st t; rfl
  | cons p ps ih =>
    intro st t
    simp only [List.foldl_cons, List.flatMap_cons, List.foldl_append]
    rw [ih]
    simp only [assignClusterFold]
    rw [foldl_assignStep_owners]

theorem assignPhase_owners (clusters : List Cluster) (t : String) :
    (assignPhase clusters).owners t = ownerFold clusters t := by
  simp only [assignPhase, ownerFold, keywordStream]
  rw [foldl_assignClusterFold_owners]

/-- C3 (amended): the keyword-uniqueness pass does not assign a duplicated
text to the globally most-similar cluster. Its actual policy is the
sequential rule `ownerFold`: scanning all keyword occurrences in cluster
order, the first cluster containing the text claims it, and a later
cluster takes it over only when its pillar-topic affinity exceeds the
current owner's by strictly more than 0.02. After the assignment phase the
owner map equals `ownerFold`, and a text owned by cluster `j` is retained
exactly once, in cluster `j`'s list, and in no other list. -/
theorem C3_sequential_ownership (clusters : List Cluster) (t : String) :
    (assignPhase clusters).owners t = ownerFold clusters t ∧
    (∀ j a, ownerFold clusters t = some (j, a) →
      j < clusters.length ∧
      ∀ k, countIn ((assignPhase clusters).lists.getD k []) t = if k = j then 1 else 0) := by
  have hok := assignPhase_ok clusters
  refine ⟨assignPhase_owners clusters t, fun j a hja => ?_⟩
  have h2 := (hok.1 t).2 j a (by rw [assignPhase_owners clusters t]; exact hja)
  exact ⟨by rw [← hok.2]; exact h2.1, h2.2⟩

set_option maxRecDepth 100000 in
unseal Rat.add Rat.mul Rat.inv Rat.sub in
/-- C3 witness: on the two concrete clusters sharing one keyword text, the
assignment phase's owner map agrees with the sequential rule, and the
owned text is retained exactly once, in the first cluster's list. -/
theorem C3_witness :
    (assignPhase [clusterC3a, clusterC3b]).owners "a b c d e f g h i j"
      = ownerFold [clusterC3a, clusterC3b] "a b c d e f g h i j" ∧
    countIn ((assignPhase [clusterC3a, clusterC3b]).lists.getD 0 []) "a b c d e f g h i j" = 1 ∧
    countIn ((assignPhase [clusterC3a, clusterC3b]).lists.getD 1 []) "a b c d e f g h i j" = 0 := by
  have h := C3_sequential_ownership [clusterC3a, clusterC3b] "a b c d e f g h i j"
  have h2 := h.2 0 (5/14) (by decide)
  refine ⟨h.1, ?_, ?_⟩
  · have h3 := h2.2 0
    simpa using h3
  · have h3 := h2.2 1
    simpa using h3

theorem patternBonus_nonneg (a b : String) : 0 ≤ patternBonus a b := by
  simp only [patternBonus]; split_ifs <;> norm_num

theorem patternBonus_comm (a b : String) : patternBonus a b = patternBonus b a := by
  simp only [patternBonus]
  split_ifs with h1 h2 h3 h4 <;> simp_all [eq_comm]

theorem sim_comm (x y : String) :
    calculateSemanticSimilarity x y = calculateSemanticSimilarity y x := by
  simp only [calculateSemanticSimilarity]
  rw [Finset.inter_comm, Finset.union_comm, Bool.or_comm, patternBonus_comm]

theorem sim_self (x : String) (h : tokenStems x ≠ ∅) :
    calculateSemanticSimilarity x x = 1 := by
  simp only [calculateSemanticSimilarity, Finset.inter_self, Finset.union_self]
  have hc : 0 < (tokenStems x).card :=
    Finset.card_pos.mpr (Finset.nonempty_iff_ne_empty.mpr h)
  rw [if_pos hc]
  have hj : ((tokenStems x).card : ℚ) / ((tokenStems x).card : ℚ) = 1 :=
    div_self (Nat.cast_ne_zero.mpr hc.ne')
  have hsub : containsStr (jsLower x) (jsLower x) = true :=
    decide_eq_true (List.infix_refl _)
  rw [hj, hsub, jsMin_eq_min]
  simp only [Bool.true_or, if_pos]
  have := patternBonus_nonneg (jsLower x) (jsLower x)
  apply min_eq_left; linarith

unseal Rat.add Rat.mul Rat.inv Rat.sub in
/-- C6 (counterexample): the claim "calculateSemanticSimilarity(x, x) = 1 for
every string x" is false at x = "": the empty string has no tokens, so the
Jaccard part is 0 and only the substring bonus 0.3 remains. -/
theorem C6_counterexample :
    calculateSemanticSimilarity "" "" = 3/10 ∧ calculateSemanticSimilarity "" "" ≠ 1 := by
  decide

/-- C6 (amended): `calculateSemanticSimilarity(x, x) = 1` for every string x
whose stemmed-token set is non-empty (the empty string, with no tokens,
scores 0.3 against itself), and `calculateSemanticSimilarity` is exactly
symmetric (so in particular symmetric up to any floating-point tolerance). -/
theorem C6_similarity_refl_symm :
    (∀ x : String, tokenStems x ≠ ∅ → calculateSemanticSimilarity x x = 1) ∧
    (∀ x y : String, calculateSemanticSimilarity x y = calculateSemanticSimilarity y x) :=
  ⟨fun x h => sim_self x h, fun x y => sim_comm x y⟩

/-- C6 witness: the amended reflexivity instantiated at a concrete keyword. -/
theorem C6_witness :
    tokenStems "seo tools" ≠ ∅ ∧ calculateSemanticSimilarity "seo tools" "seo tools" = 1 :=
  ⟨by decide, C6_similarity_refl_symm.1 "seo tools" (by decide)⟩

end KeywordTool
